import Mathlib

/-!
Verification of the per-channel message reconciliation engine of the
lunar rocket tracking service.

The definitions below are a shallow embedding of the Go sources:
`internal/models/messages.go` (envelope and state records) and
`internal/storage` (`RocketRepository` with `ProcessMessage`,
`processPendingMessages`, `processMessageByType`, `GetRocket`,
`GetAllRockets`, `GetDebugInfo`).

Modelling conventions:
* Go `int` is modelled as `Int` (the spec's data model treats the numeric
  fields as mathematical integers).
* `time.Time` is modelled as `Int`; the zero value (`IsZero`) is `0`.
* The three Go maps of the repository are modelled as association lists in
  insertion order — the first binding of a key is its value, an update
  rewrites the binding in place, an insertion appends.  Go maps do not
  guarantee any iteration order, so where the code ranges over a map
  (`GetDebugInfo`, the explosion sweep) the association-list order is one
  admissible execution.
* The `for { ... }` drain loop of `processPendingMessages` is modelled with
  explicit fuel; every continuing iteration removes one pending entry, so
  the length of the pending buffer is sufficient fuel.
-/

namespace Lunar

/-- Envelope metadata (`RocketMessage.Metadata` in `messages.go`). -/
structure Metadata where
  channel : String
  messageNumber : Int
  messageTime : Int
  messageType : String
deriving DecidableEq

/-- Payload with every kind's fields optional (`MessageContent`). -/
structure MessageContent where
  type : String
  launchSpeed : Int
  mission : String
  by_ : Int
  reason : String
  newMission : String
deriving DecidableEq

/-- A rocket message (`RocketMessage`). -/
structure RocketMessage where
  metadata : Metadata
  message : MessageContent
deriving DecidableEq

def MessageTypeRocketLaunched : String := "RocketLaunched"
def MessageTypeRocketSpeedIncreased : String := "RocketSpeedIncreased"
def MessageTypeRocketSpeedDecreased : String := "RocketSpeedDecreased"
def MessageTypeRocketExploded : String := "RocketExploded"
def MessageTypeRocketMissionChanged : String := "RocketMissionChanged"

def RocketMessage.GetChannel (m : RocketMessage) : String := m.metadata.channel

def RocketMessage.GetMessageNumber (m : RocketMessage) : Int := m.metadata.messageNumber

def RocketMessage.GetMessageTime (m : RocketMessage) : Int := m.metadata.messageTime

def RocketMessage.GetMessageType (m : RocketMessage) : String := m.metadata.messageType

/-- The reduced state of one rocket (`RocketState`). -/
structure RocketState where
  id : String
  type : String
  speed : Int
  mission : String
  exploded : Bool
  reason : String
  createdAt : Int
  updatedAt : Int
  lastProcessedMessageNumber : Int
deriving DecidableEq

/-- Summary shape returned by `GetAllRockets` (`RocketSummary`). -/
structure RocketSummary where
  id : String
  type : String
  speed : Int
  mission : String
  exploded : Bool
  updatedAt : Int
deriving DecidableEq

/-- First-match lookup in an association list (a Go map read `m[k]`). -/
def lookupKey {κ α : Type} [DecidableEq κ] : List (κ × α) → κ → Option α
  | [], _ => none
  | p :: rest, k => if p.1 = k then some p.2 else lookupKey rest k

/-- Map write `m[k] = v`: rewrite the first binding of `k`, else append. -/
def setKey {κ α : Type} [DecidableEq κ] : List (κ × α) → κ → α → List (κ × α)
  | [], k, v => [(k, v)]
  | p :: rest, k, v => if p.1 = k then (k, v) :: rest else p :: setKey rest k v

/-- Map delete `delete(m, k)`: drop every binding of `k`. -/
def eraseKey {κ α : Type} [DecidableEq κ] : List (κ × α) → κ → List (κ × α)
  | [], _ => []
  | p :: rest, k => if p.1 = k then eraseKey rest k else p :: eraseKey rest k

/-- Insertion into the dedup set `processedMessages[id][n] = true`. -/
def insertNum (l : List Int) (n : Int) : List Int :=
  if n ∈ l then l else l ++ [n]

/-- The repository (`RocketRepository`): three maps keyed by channel id. -/
structure RocketRepository where
  rockets : List (String × RocketState)
  processedMessages : List (String × List Int)
  pendingMessages : List (String × List (Int × RocketMessage))
deriving DecidableEq

/-- `NewRocketRepository`. -/
def NewRocketRepository : RocketRepository := ⟨[], [], []⟩

def RocketRepository.processedFor (r : RocketRepository) (id : String) : List Int :=
  (lookupKey r.processedMessages id).getD []

def RocketRepository.pendingFor (r : RocketRepository) (id : String) :
    List (Int × RocketMessage) :=
  (lookupKey r.pendingMessages id).getD []

/-- `GetRocket` (the returned value is a copy; `Option` stands for the
`(value, ok)` pair). -/
def GetRocket (r : RocketRepository) (id : String) : Option RocketState :=
  lookupKey r.rockets id

/-- `GetAllRockets`. -/
def GetAllRockets (r : RocketRepository) : List RocketSummary :=
  r.rockets.map fun p =>
    { id := p.2.id, type := p.2.type, speed := p.2.speed, mission := p.2.mission,
      exploded := p.2.exploded, updatedAt := p.2.updatedAt }

/-- `processMessageByType`: the transition function.  Returns the updated
rocket value, the updated repository (the `RocketExploded` case sweeps the
pending buffer of `rocket.id`), and the `accepted` flag.  Every rejecting
path returns its inputs unchanged. -/
def processMessageByType (r : RocketRepository) (rocket : RocketState)
    (msg : RocketMessage) : RocketState × RocketRepository × Bool :=
  if rocket.exploded = true ∧ msg.GetMessageType ≠ MessageTypeRocketLaunched then
    (rocket, r, false)
  else if msg.GetMessageType = MessageTypeRocketLaunched then
    if msg.message.type = "" ∨ msg.message.mission = "" then (rocket, r, false)
    else
      let rocket' : RocketState :=
        { rocket with
          type := msg.message.type
          mission := msg.message.mission
          speed := msg.message.launchSpeed
          exploded := false
          reason := "" }
      let rocket' := if rocket'.createdAt = 0 then
          { rocket' with createdAt := msg.GetMessageTime } else rocket'
      (rocket', r, true)
  else if msg.GetMessageType = MessageTypeRocketSpeedIncreased then
    if msg.message.by_ ≤ 0 then (rocket, r, false)
    else ({ rocket with speed := rocket.speed + msg.message.by_ }, r, true)
  else if msg.GetMessageType = MessageTypeRocketSpeedDecreased then
    if msg.message.by_ ≤ 0 then (rocket, r, false)
    else
      let s := rocket.speed - msg.message.by_
      ({ rocket with speed := if s < 0 then 0 else s }, r, true)
  else if msg.GetMessageType = MessageTypeRocketExploded then
    if msg.message.reason = "" then (rocket, r, false)
    else
      let rocket' : RocketState :=
        { rocket with exploded := true, reason := msg.message.reason }
      match lookupKey r.pendingMessages rocket.id with
      | none => (rocket', r, true)
      | some pend =>
          let pend' := pend.filter fun p =>
            p.2.GetMessageType == MessageTypeRocketLaunched
          let r' : RocketRepository :=
            { r with pendingMessages := setKey r.pendingMessages rocket.id pend' }
          (rocket', r', true)
  else if msg.GetMessageType = MessageTypeRocketMissionChanged then
    if msg.message.newMission = "" then (rocket, r, false)
    else ({ rocket with mission := msg.message.newMission }, r, true)
  else (rocket, r, false)

/-- One accepted application recorded by the reconciler: write the rocket
back, mark the number processed.  Shared by the in-order path of
`ProcessMessage` and by the drain. -/
def recordApplied (r : RocketRepository) (rocketID : String) (msgNumber : Int)
    (msg : RocketMessage) (rocket : RocketState) : RocketRepository :=
  let rocket' :=
    { rocket with
      lastProcessedMessageNumber := msgNumber
      updatedAt := msg.GetMessageTime }
  { r with
    rockets := setKey r.rockets rocketID rocket'
    processedMessages := setKey r.processedMessages rocketID
        (insertNum (r.processedFor rocketID) msgNumber) }

/-- `processPendingMessages`: the drain loop, with explicit fuel.  Each
continuing iteration deletes one pending entry, so
`(r.pendingFor rocketID).length` fuel is always enough. -/
def processPendingMessages : Nat → RocketRepository → String → RocketRepository
  | 0, r, _ => r
  | fuel + 1, r, rocketID =>
    match lookupKey r.rockets rocketID with
    | none => r
    | some rocket =>
      let nextMsgNumber := rocket.lastProcessedMessageNumber + 1
      match lookupKey (r.pendingFor rocketID) nextMsgNumber with
      | none => r
      | some msg =>
        if rocket.exploded = true ∧ msg.GetMessageType ≠ MessageTypeRocketLaunched then
          processPendingMessages fuel
            { r with
              pendingMessages := setKey r.pendingMessages rocketID
                  (eraseKey (r.pendingFor rocketID) nextMsgNumber) } rocketID
        else
          match processMessageByType r rocket msg with
          | (rocket', r', true) =>
            let r2 := recordApplied r' rocketID nextMsgNumber msg rocket'
            let r3 :=
              { r2 with
                pendingMessages := setKey r2.pendingMessages rocketID
                    (eraseKey (r2.pendingFor rocketID) nextMsgNumber) }
            processPendingMessages fuel r3 rocketID
          | (_, r', false) =>
            { r' with
              pendingMessages := setKey r'.pendingMessages rocketID
                  (eraseKey (r'.pendingFor rocketID) nextMsgNumber) }

/-- The tail of `ProcessMessage` from the `expectedMsgNumber` comparison on. -/
def processInOrder (r : RocketRepository) (rocketID : String) (msgNumber : Int)
    (msg : RocketMessage) (rocket : RocketState) : RocketRepository × Bool :=
  let expected := rocket.lastProcessedMessageNumber + 1
  if msgNumber = expected then
    match processMessageByType r rocket msg with
    | (rocket', r', true) =>
      let r2 := recordApplied r' rocketID msgNumber msg rocket'
      (processPendingMessages (r2.pendingFor rocketID).length r2 rocketID, true)
    | (_, r', false) => (r', false)
  else if expected < msgNumber then
    let r' : RocketRepository :=
      { r with
        pendingMessages := setKey r.pendingMessages rocketID
            (setKey (r.pendingFor rocketID) msgNumber msg) }
    (r', true)
  else (r, false)

/-- The map initialization at the top of `ProcessMessage`: make sure the
per-channel dedup map and pending map exist. -/
def initMaps (r : RocketRepository) (rocketID : String) : RocketRepository :=
  let r := match lookupKey r.processedMessages rocketID with
    | none => { r with processedMessages := setKey r.processedMessages rocketID [] }
    | some _ => r
  match lookupKey r.pendingMessages rocketID with
  | none => { r with pendingMessages := setKey r.pendingMessages rocketID [] }
  | some _ => r

/-- `ProcessMessage`: dedup, bootstrap, buffer or apply-in-place + drain. -/
def ProcessMessage (r : RocketRepository) (msg : RocketMessage) :
    RocketRepository × Bool :=
  let rocketID := msg.GetChannel
  let msgNumber := msg.GetMessageNumber
  let r := initMaps r rocketID
  if msgNumber ∈ r.processedFor rocketID then (r, true)
  else
    match lookupKey r.rockets rocketID with
    | none =>
      if msg.GetMessageType ≠ MessageTypeRocketLaunched then
        let r' : RocketRepository :=
          { r with
            pendingMessages := setKey r.pendingMessages rocketID
                (setKey (r.pendingFor rocketID) msgNumber msg) }
        (r', true)
      else
        let rocket : RocketState :=
          { id := rocketID, type := "", speed := 0, mission := "", exploded := false,
            reason := "", createdAt := 0, updatedAt := 0,
            lastProcessedMessageNumber := 0 }
        processInOrder { r with rockets := setKey r.rockets rocketID rocket }
          rocketID msgNumber msg rocket
    | some rocket => processInOrder r rocketID msgNumber msg rocket

/-- `GetDebugInfo`: processed count and the pending numbers in map order. -/
def GetDebugInfo (r : RocketRepository) (rocketID : String) : Nat × List Int :=
  ((r.processedFor rocketID).length, (r.pendingFor rocketID).map Prod.fst)

/-- Ingest a whole stream, left to right, starting from a fresh repository. -/
def ingestAll (msgs : List RocketMessage) : RocketRepository :=
  msgs.foldl (fun r m => (ProcessMessage r m).1) NewRocketRepository

/-- Ingest a stream starting from a given repository. -/
def ingestFrom (r : RocketRepository) (msgs : List RocketMessage) : RocketRepository :=
  msgs.foldl (fun r m => (ProcessMessage r m).1) r

/-- The list of `ok` results of a stream ingested from a fresh repository. -/
def okList (msgs : List RocketMessage) : List Bool :=
  (msgs.foldl (fun (acc : RocketRepository × List Bool) m =>
    let (r, ok) := ProcessMessage acc.1 m
    (r, acc.2 ++ [ok])) (NewRocketRepository, [])).2

/-! ### Canonical per-channel states

Auxiliary definitions used to reason about single-channel ingest streams:
the state reached after ingesting any prefix of a permutation of a
well-formed stream is a *canonical* repository determined by the prefix. -/

/-- The zeroed record `ProcessMessage` inserts before the first apply. -/
def emptyRocketState (id : String) : RocketState :=
  { id := id, type := "", speed := 0, mission := "", exploded := false,
    reason := "", createdAt := 0, updatedAt := 0, lastProcessedMessageNumber := 0 }

/-- The rocket after one accepted application: the transition function's
update (which never depends on the repository argument) followed by the
cursor and timestamp bookkeeping of the reconciler. -/
def applyStep (ρ : RocketState) (m : RocketMessage) : RocketState :=
  { (processMessageByType NewRocketRepository ρ m).1 with
    lastProcessedMessageNumber := m.GetMessageNumber
    updatedAt := m.GetMessageTime }

/-- The rocket of channel `c` after the first `k` messages of the in-order
stream `S` have been applied. -/
def rocketAfter (c : String) (S : List RocketMessage) (k : Nat) : RocketState :=
  (S.take k).foldl applyStep (emptyRocketState c)

/-- `[1, 2, ..., k]` as integers: the processed set after `k` in-order applies. -/
def ascInts (k : Nat) : List Int := (List.range k).map fun (i : Nat) => (i : Int) + 1

/-- Walk the chain `j+1, j+2, ...` as long as the next number is present;
`fuel` bounds the walk (the chain visits distinct members, so the length of
the list is always enough fuel). -/
def chainE : Nat → List Int → Int → Int
  | 0, _, j => j
  | f + 1, ns, j => if (j + 1) ∈ ns then chainE f ns (j + 1) else j

/-- The cursor reached from `j` given the available numbers `ns`. -/
def chainFrom (ns : List Int) (j : Int) : Int := chainE ns.length ns j

def numbersOf (P : List RocketMessage) : List Int :=
  P.map fun m => m.GetMessageNumber

/-- The pending buffer after ingesting `P`: the envelopes whose number is
beyond the cursor `k`, in arrival order. -/
def pendingOf (P : List RocketMessage) (k : Int) : List (Int × RocketMessage) :=
  P.filterMap fun m =>
    if k < m.GetMessageNumber then some (m.GetMessageNumber, m) else none

def hasLaunched (P : List RocketMessage) : Bool :=
  P.any fun m => m.GetMessageType == MessageTypeRocketLaunched

/-- The canonical repository shape after a non-empty single-channel prefix
`P` of a permutation of the in-order stream `S`. -/
def canonBase (c : String) (S P : List RocketMessage) : RocketRepository :=
  let k := chainFrom (numbersOf P) 0
  { rockets := if hasLaunched P then [(c, rocketAfter c S k.toNat)] else []
    processedMessages := [(c, ascInts k.toNat)]
    pendingMessages := [(c, pendingOf P k)] }

/-- The canonical repository after ingesting the prefix `P`. -/
def canonRepo (c : String) (S P : List RocketMessage) : RocketRepository :=
  match P with
  | [] => NewRocketRepository
  | _ :: _ => canonBase c S P

/-- The payload of `m` passes the in-kind checks of the transition function
and its kind is neither `Exploded` nor unrecognized: such a message is
accepted by `processMessageByType` on every non-exploded rocket. -/
def contentValid (m : RocketMessage) : Prop :=
  (m.GetMessageType = MessageTypeRocketLaunched ∧
    m.message.type ≠ "" ∧ m.message.mission ≠ "") ∨
  (m.GetMessageType = MessageTypeRocketSpeedIncreased ∧ 0 < m.message.by_) ∨
  (m.GetMessageType = MessageTypeRocketSpeedDecreased ∧ 0 < m.message.by_) ∨
  (m.GetMessageType = MessageTypeRocketMissionChanged ∧ m.message.newMission ≠ "")

instance (m : RocketMessage) : Decidable (contentValid m) := by
  unfold contentValid
  infer_instance

/-- Every stored rocket carries its own channel id — true of every state the
code can reach, and needed because the explosion sweep is keyed by
`rocket.id` while the reconciler is keyed by the channel. -/
def WellKeyed (r : RocketRepository) : Prop :=
  ∀ p ∈ r.rockets, p.2.id = p.1

/-- The data-model precondition of the spec: a `Launched` payload carries a
non-negative `launchSpeed`.  (Nothing is assumed of the other kinds.) -/
def launchOK (m : RocketMessage) : Prop :=
  m.GetMessageType = MessageTypeRocketLaunched → 0 ≤ m.message.launchSpeed

instance (m : RocketMessage) : Decidable (launchOK m) := by
  unfold launchOK
  infer_instance

/-- The speed invariant: every stored rocket has non-negative speed, and
every buffered `Launched` payload has non-negative launch speed. -/
def SpeedOK (r : RocketRepository) : Prop :=
  (∀ c ρ, GetRocket r c = some ρ → 0 ≤ ρ.speed) ∧
  (∀ q pm, pm ∈ r.pendingFor q → launchOK pm.2)

/-- Both per-channel maps of a channel exist (hold a binding). -/
def KeysAt (c : String) (r : RocketRepository) : Prop :=
  lookupKey r.processedMessages c ≠ none ∧ lookupKey r.pendingMessages c ≠ none

/-- Buffering an envelope: the repository update shared by the bootstrap
and out-of-order paths of `ProcessMessage`. -/
def bufferInto (X : RocketRepository) (c : String) (n : Int)
    (m : RocketMessage) : RocketRepository :=
  { X with
    pendingMessages := setKey X.pendingMessages c (setKey (X.pendingFor c) n m) }

def canonState (c : String) (S : List RocketMessage) (j : Nat)
    (pl : List (Int × RocketMessage)) : RocketRepository :=
  ⟨[(c, rocketAfter c S j)], [(c, ascInts j)], [(c, pl)]⟩

def GoodStream (c : String) (S : List RocketMessage) : Prop :=
  (∀ m ∈ S, m.GetChannel = c) ∧
  numbersOf S = ascInts S.length ∧
  (∀ m ∈ S, contentValid m) ∧
  (∀ m ∈ S, m.GetMessageNumber = 1 → m.GetMessageType = MessageTypeRocketLaunched)

instance (c : String) (S : List RocketMessage) : Decidable (GoodStream c S) := by
  unfold GoodStream
  infer_instance

def IsChain (ns : List Int) (j k : Int) : Prop :=
  j ≤ k ∧ (∀ i : Int, j < i → i ≤ k → i ∈ ns) ∧ (k + 1) ∉ ns

/-! ### Concrete envelopes used in the end-to-end scenarios -/

def emptyContent : MessageContent :=
  { type := "", launchSpeed := 0, mission := "", by_ := 0, reason := "", newMission := "" }

def launchContent (ty mi : String) (sp : Int) : MessageContent :=
  { emptyContent with type := ty, mission := mi, launchSpeed := sp }

def speedContent (b : Int) : MessageContent := { emptyContent with by_ := b }

def explodedContent (re : String) : MessageContent := { emptyContent with reason := re }

def mkMsg (ch : String) (n t : Int) (ty : String) (c : MessageContent) : RocketMessage :=
  { metadata := { channel := ch, messageNumber := n, messageTime := t, messageType := ty },
    message := c }

def msgL1R : RocketMessage :=
  mkMsg "R" 1 10 MessageTypeRocketLaunched (launchContent "Falcon-9" "ARTEMIS" 500)

def msgSI5R : RocketMessage :=
  mkMsg "R" 5 20 MessageTypeRocketSpeedIncreased (speedContent 50)

def msgEX2R : RocketMessage :=
  mkMsg "R" 2 30 MessageTypeRocketExploded (explodedContent "X")

def msgSI1R : RocketMessage :=
  mkMsg "R" 1 10 MessageTypeRocketSpeedIncreased (speedContent 50)

def msgL2R : RocketMessage :=
  mkMsg "R" 2 20 MessageTypeRocketLaunched (launchContent "Falcon-9" "ARTEMIS" 500)

/-- An exploded rocket state, as reached after `#1 Launched`, `#2 Exploded`. -/
def rocketExp : RocketState :=
  { id := "R", type := "Falcon-9", speed := 500, mission := "ARTEMIS",
    exploded := true, reason := "X", createdAt := 10, updatedAt := 30,
    lastProcessedMessageNumber := 2 }

/-- A repository holding the exploded rocket `rocketExp` on channel `"R"`. -/
def repoExp : RocketRepository :=
  { rockets := [("R", rocketExp)], processedMessages := [("R", [1, 2])],
    pendingMessages := [("R", [])] }

def msgSI3R : RocketMessage :=
  mkMsg "R" 3 40 MessageTypeRocketSpeedIncreased (speedContent 50)

/-- An envelope whose `messageType` is none of the five recognized constants. -/
def msgUnk7R : RocketMessage := mkMsg "R" 7 40 "RocketTeleported" emptyContent

/-- A first `Launched` whose payload fails validation (empty mission). -/
def msgBadL1R : RocketMessage :=
  mkMsg "R" 1 10 MessageTypeRocketLaunched (launchContent "Falcon-9" "" 500)

/-- A flying (non-exploded) rocket state with cursor 1. -/
def rocketRun : RocketState :=
  { id := "R", type := "Falcon-9", speed := 500, mission := "ARTEMIS",
    exploded := false, reason := "", createdAt := 10, updatedAt := 10,
    lastProcessedMessageNumber := 1 }

/-- A repository holding `rocketRun` on channel `"R"`. -/
def repoRun : RocketRepository :=
  { rockets := [("R", rocketRun)], processedMessages := [("R", [1])],
    pendingMessages := [("R", [])] }

/-- An in-order `SpeedDecreased` whose `by` exceeds the current speed. -/
def msgSD2R : RocketMessage :=
  mkMsg "R" 2 20 MessageTypeRocketSpeedDecreased (speedContent 800)

/-- A later valid `Launched` (relaunch after the explosion): `#3` on `"R"`. -/
def msgL3R : RocketMessage :=
  mkMsg "R" 3 40 MessageTypeRocketLaunched (launchContent "Atlas" "LUNA" 800)

/-- An in-order `SpeedIncreased`: `#4` on `"R"`. -/
def msgSI4R : RocketMessage :=
  mkMsg "R" 4 50 MessageTypeRocketSpeedIncreased (speedContent 50)

/-! ### Association-list lemmas -/

theorem lookupKey_setKey_self {κ α : Type} [DecidableEq κ] (l : List (κ × α))
    (k : κ) (v : α) : lookupKey (setKey l k v) k = some v := by
  induction l with
  | nil => simp [setKey, lookupKey]
  | cons p rest ih =>
    by_cases h : p.1 = k
    · simp [setKey, h, lookupKey]
    · simp [setKey, h, lookupKey, ih]

theorem lookupKey_setKey_ne {κ α : Type} [DecidableEq κ] (l : List (κ × α))
    (k k' : κ) (v : α) (h : k' ≠ k) :
    lookupKey (setKey l k v) k' = lookupKey l k' := by
  induction l with
  | nil => simp [setKey, lookupKey, Ne.symm h]
  | cons p rest ih =>
    by_cases hp : p.1 = k
    · simp [setKey, hp, lookupKey, Ne.symm h]
    · simp [setKey, hp, lookupKey, ih]

theorem mem_setKey_self {κ α : Type} [DecidableEq κ] (l : List (κ × α))
    (k : κ) (v : α) : (k, v) ∈ setKey l k v := by
  induction l with
  | nil => simp [setKey]
  | cons p rest ih =>
    by_cases h : p.1 = k
    · simp [setKey, h]
    · simp only [setKey, if_neg h]
      exact List.mem_cons_of_mem _ ih

theorem lookupKey_eq_none_iff {κ α : Type} [DecidableEq κ] (l : List (κ × α))
    (k : κ) : lookupKey l k = none ↔ k ∉ l.map Prod.fst := by
  induction l with
  | nil => simp [lookupKey]
  | cons p rest ih =>
    by_cases h : p.1 = k
    · simp [lookupKey, h]
    · simp [lookupKey, h, ih, Ne.symm h]

theorem lookupKey_eraseKey_self {κ α : Type} [DecidableEq κ]
    (l : List (κ × α)) (k : κ) : lookupKey (eraseKey l k) k = none := by
  induction l with
  | nil => simp [eraseKey, lookupKey]
  | cons p rest ih =>
    by_cases h : p.1 = k
    · simp [eraseKey, h, ih]
    · simp [eraseKey, h, lookupKey, ih]

theorem lookupKey_eraseKey_ne {κ α : Type} [DecidableEq κ]
    (l : List (κ × α)) (k k' : κ) (h : k' ≠ k) :
    lookupKey (eraseKey l k) k' = lookupKey l k' := by
  induction l with
  | nil => simp [eraseKey]
  | cons p rest ih =>
    by_cases hp : p.1 = k
    · simp [eraseKey, hp, lookupKey, Ne.symm h, ih]
    · simp [eraseKey, hp, lookupKey, ih]

theorem mem_keys_eraseKey {κ α : Type} [DecidableEq κ]
    (l : List (κ × α)) (k i : κ) (h : i ≠ k) :
    i ∈ (eraseKey l k).map Prod.fst ↔ i ∈ l.map Prod.fst := by
  induction l with
  | nil => simp [eraseKey]
  | cons p rest ih =>
    by_cases hp : p.1 = k
    · rw [show eraseKey (p :: rest) k = eraseKey rest k by simp [eraseKey, hp]]
      rw [ih]
      simp [hp, h]
    · simp [eraseKey, hp, ih]

theorem keys_eraseKey_nodup {κ α : Type} [DecidableEq κ]
    (l : List (κ × α)) (k : κ) (h : (l.map Prod.fst).Nodup) :
    ((eraseKey l k).map Prod.fst).Nodup := by
  induction l with
  | nil => simp [eraseKey]
  | cons p rest ih =>
    simp only [List.map_cons, List.nodup_cons] at h
    by_cases hp : p.1 = k
    · simp only [eraseKey, if_pos hp]
      exact ih h.2
    · simp only [eraseKey, if_neg hp, List.map_cons, List.nodup_cons]
      refine ⟨fun hmem => ?_, ih h.2⟩
      by_cases hk : p.1 = k
      · exact hp hk
      · exact h.1 ((mem_keys_eraseKey rest k p.1 hk).mp hmem)

theorem length_eraseKey_of_lookup {κ α : Type} [DecidableEq κ]
    (l : List (κ × α)) (k : κ) (v : α) (hn : (l.map Prod.fst).Nodup)
    (h : lookupKey l k = some v) :
    (eraseKey l k).length + 1 = l.length := by
  induction l with
  | nil => simp [lookupKey] at h
  | cons p rest ih =>
    simp only [List.map_cons, List.nodup_cons] at hn
    by_cases hp : p.1 = k
    · have : eraseKey rest k = rest := by
        clear ih h
        induction rest with
        | nil => simp [eraseKey]
        | cons q tl ihq =>
          simp only [List.map_cons, List.mem_cons, List.nodup_cons] at hn
          have hq : ¬ q.1 = k := fun hh => hn.1 (Or.inl (hp ▸ hh ▸ rfl))
          simp only [eraseKey, if_neg hq, List.cons.injEq, true_and]
          exact ihq ⟨fun hm => hn.1 (Or.inr hm), hn.2.2⟩
      simp [eraseKey, hp, this]
    · simp only [lookupKey, if_neg hp] at h
      simp only [eraseKey, if_neg hp, List.length_cons]
      rw [ih hn.2 h]

/-! ### `initMaps` lemmas -/

theorem initMaps_rockets (r : RocketRepository) (id : String) :
    (initMaps r id).rockets = r.rockets := by
  unfold initMaps
  rcases lookupKey r.processedMessages id with _ | _ <;>
    rcases h2 : lookupKey r.pendingMessages id with _ | _ <;> simp [h2]

theorem initMaps_processedFor (r : RocketRepository) (id id' : String) :
    (initMaps r id).processedFor id' = r.processedFor id' := by
  unfold initMaps
  rcases h1 : lookupKey r.processedMessages id with _ | l1 <;>
    rcases h2 : lookupKey r.pendingMessages id with _ | l2 <;>
      simp only [h1, h2] <;>
      by_cases hid : id' = id <;>
      first
        | rfl
        | (subst hid
           simp [RocketRepository.processedFor, lookupKey_setKey_self, h1, h2])
        | simp [RocketRepository.processedFor, lookupKey_setKey_ne _ _ _ _ hid]

theorem initMaps_pendingFor (r : RocketRepository) (id id' : String) :
    (initMaps r id).pendingFor id' = r.pendingFor id' := by
  unfold initMaps
  rcases h1 : lookupKey r.processedMessages id with _ | l1 <;>
    rcases h2 : lookupKey r.pendingMessages id with _ | l2 <;>
      simp only [h1, h2] <;>
      by_cases hid : id' = id <;>
      first
        | rfl
        | (subst hid
           simp [RocketRepository.pendingFor, lookupKey_setKey_self, h1, h2])
        | simp [RocketRepository.pendingFor, lookupKey_setKey_ne _ _ _ _ hid]

theorem GetRocket_initMaps (r : RocketRepository) (id id' : String) :
    GetRocket (initMaps r id) id' = GetRocket r id' := by
  unfold GetRocket
  rw [initMaps_rockets]

theorem GetDebugInfo_initMaps (r : RocketRepository) (id id' : String) :
    GetDebugInfo (initMaps r id) id' = GetDebugInfo r id' := by
  unfold GetDebugInfo
  rw [initMaps_processedFor, initMaps_pendingFor]

/-! ### Branch lemmas for `ProcessMessage` -/

theorem ProcessMessage_dedup (r : RocketRepository) (m : RocketMessage)
    (hproc : m.GetMessageNumber ∈ r.processedFor m.GetChannel) :
    ProcessMessage r m = (initMaps r m.GetChannel, true) := by
  have hproc' : m.GetMessageNumber
      ∈ (initMaps r m.GetChannel).processedFor m.GetChannel := by
    rw [initMaps_processedFor]; exact hproc
  simp only [ProcessMessage]
  rw [if_pos hproc']

theorem ProcessMessage_noRocket_nonLaunch (r : RocketRepository) (m : RocketMessage)
    (hproc : m.GetMessageNumber ∉ r.processedFor m.GetChannel)
    (hrock : GetRocket r m.GetChannel = none)
    (hty : m.GetMessageType ≠ MessageTypeRocketLaunched) :
    ProcessMessage r m
      = ({ initMaps r m.GetChannel with
           pendingMessages := setKey (initMaps r m.GetChannel).pendingMessages
             m.GetChannel
             (setKey ((initMaps r m.GetChannel).pendingFor m.GetChannel)
               m.GetMessageNumber m) }, true) := by
  have hproc' : m.GetMessageNumber
      ∉ (initMaps r m.GetChannel).processedFor m.GetChannel := by
    rw [initMaps_processedFor]; exact hproc
  have hrock' : lookupKey (initMaps r m.GetChannel).rockets m.GetChannel = none := by
    rw [initMaps_rockets]; exact hrock
  simp only [ProcessMessage]
  rw [if_neg hproc', hrock', if_pos hty]

theorem ProcessMessage_noRocket_launch (r : RocketRepository) (m : RocketMessage)
    (hproc : m.GetMessageNumber ∉ r.processedFor m.GetChannel)
    (hrock : GetRocket r m.GetChannel = none)
    (hty : m.GetMessageType = MessageTypeRocketLaunched) :
    ProcessMessage r m
      = processInOrder
          { initMaps r m.GetChannel with
            rockets := setKey (initMaps r m.GetChannel).rockets m.GetChannel
              (emptyRocketState m.GetChannel) }
          m.GetChannel m.GetMessageNumber m (emptyRocketState m.GetChannel) := by
  have hproc' : m.GetMessageNumber
      ∉ (initMaps r m.GetChannel).processedFor m.GetChannel := by
    rw [initMaps_processedFor]; exact hproc
  have hrock' : lookupKey (initMaps r m.GetChannel).rockets m.GetChannel = none := by
    rw [initMaps_rockets]; exact hrock
  simp only [ProcessMessage]
  rw [if_neg hproc', hrock', if_neg (fun hcon => hcon hty)]
  rfl

theorem ProcessMessage_withRocket (r : RocketRepository) (m : RocketMessage)
    (ρ : RocketState)
    (hproc : m.GetMessageNumber ∉ r.processedFor m.GetChannel)
    (hrock : GetRocket r m.GetChannel = some ρ) :
    ProcessMessage r m
      = processInOrder (initMaps r m.GetChannel) m.GetChannel
          m.GetMessageNumber m ρ := by
  have hproc' : m.GetMessageNumber
      ∉ (initMaps r m.GetChannel).processedFor m.GetChannel := by
    rw [initMaps_processedFor]; exact hproc
  have hrock' : lookupKey (initMaps r m.GetChannel).rockets m.GetChannel = some ρ := by
    rw [initMaps_rockets]; exact hrock
  simp only [ProcessMessage]
  rw [if_neg hproc', hrock']

theorem processInOrder_apply_ok (r r' : RocketRepository) (c : String) (n : Int)
    (m : RocketMessage) (ρ ρ' : RocketState)
    (heq : n = ρ.lastProcessedMessageNumber + 1)
    (happ : processMessageByType r ρ m = (ρ', r', true)) :
    processInOrder r c n m ρ
      = (processPendingMessages
          ((recordApplied r' c n m ρ').pendingFor c).length
          (recordApplied r' c n m ρ') c, true) := by
  unfold processInOrder
  rw [if_pos heq, happ]

theorem processInOrder_apply_fail (r r' : RocketRepository) (c : String) (n : Int)
    (m : RocketMessage) (ρ ρ' : RocketState)
    (heq : n = ρ.lastProcessedMessageNumber + 1)
    (happ : processMessageByType r ρ m = (ρ', r', false)) :
    processInOrder r c n m ρ = (r', false) := by
  unfold processInOrder
  rw [if_pos heq, happ]

theorem processInOrder_buffer (r : RocketRepository) (c : String) (n : Int)
    (m : RocketMessage) (ρ : RocketState)
    (hlt : ρ.lastProcessedMessageNumber + 1 < n) :
    processInOrder r c n m ρ
      = ({ r with
           pendingMessages := setKey r.pendingMessages c (setKey (r.pendingFor c) n m) },
         true) := by
  unfold processInOrder
  rw [if_neg (by omega : ¬ n = ρ.lastProcessedMessageNumber + 1), if_pos hlt]

theorem processInOrder_stale (r : RocketRepository) (c : String) (n : Int)
    (m : RocketMessage) (ρ : RocketState)
    (hlt : n < ρ.lastProcessedMessageNumber + 1) :
    processInOrder r c n m ρ = (r, false) := by
  unfold processInOrder
  rw [if_neg (by omega : ¬ n = ρ.lastProcessedMessageNumber + 1),
    if_neg (by omega : ¬ ρ.lastProcessedMessageNumber + 1 < n)]

/-- The terminal gate of the transition function. -/
theorem processMessageByType_gate (r : RocketRepository) (ρ : RocketState)
    (m : RocketMessage) (hexp : ρ.exploded = true)
    (hkind : m.GetMessageType ≠ MessageTypeRocketLaunched) :
    processMessageByType r ρ m = (ρ, r, false) := by
  unfold processMessageByType
  rw [if_pos ⟨hexp, hkind⟩]

/-- The default branch of the transition function. -/
theorem processMessageByType_default (r : RocketRepository) (ρ : RocketState)
    (m : RocketMessage)
    (h1 : m.GetMessageType ≠ MessageTypeRocketLaunched)
    (h2 : m.GetMessageType ≠ MessageTypeRocketSpeedIncreased)
    (h3 : m.GetMessageType ≠ MessageTypeRocketSpeedDecreased)
    (h4 : m.GetMessageType ≠ MessageTypeRocketExploded)
    (h5 : m.GetMessageType ≠ MessageTypeRocketMissionChanged) :
    processMessageByType r ρ m = (ρ, r, false) := by
  unfold processMessageByType
  by_cases hexp : ρ.exploded = true ∧ m.GetMessageType ≠ MessageTypeRocketLaunched
  · rw [if_pos hexp]
  · rw [if_neg hexp, if_neg h1, if_neg h2, if_neg h3, if_neg h4, if_neg h5]

/-! ### C1 — explosion buries pending -/

/-- C1 counterexample: in the scenario `#1 Launched`, `#5 SpeedIncreased{by:50}`,
`#2 Exploded{reason:"X"}` on the fresh channel `"R"`, the cursor does **not**
advance to `5` after the drain — it stays at `2` — so the claim as stated is
false at this input. -/
theorem c1_cursor_stays_at_two :
    (GetRocket (ingestAll [msgL1R, msgSI5R, msgEX2R]) "R").map
        RocketState.lastProcessedMessageNumber = some 2 ∧
    ¬ (GetRocket (ingestAll [msgL1R, msgSI5R, msgEX2R]) "R").map
        RocketState.lastProcessedMessageNumber = some 5 := by
  decide

/-- C1 (amended): ingesting `#1 Launched`, `#5 SpeedIncreased{by:50}`,
`#2 Exploded{reason:"X"}` on one fresh channel leaves `exploded = true` with
reason `"X"`, the pending entry at `#5` discarded (by the post-explosion
buffer sweep inside the apply, before the drain runs), the cursor at `2`
(the drain stops at the gap at `3`), and the speed untouched by the buffered
`SpeedIncreased` (still the launch speed `500`).  All three ingests return
`ok = true`. -/
theorem c1_explosion_buries_pending :
    okList [msgL1R, msgSI5R, msgEX2R] = [true, true, true] ∧
    (GetRocket (ingestAll [msgL1R, msgSI5R, msgEX2R]) "R").map RocketState.exploded
      = some true ∧
    (GetRocket (ingestAll [msgL1R, msgSI5R, msgEX2R]) "R").map RocketState.reason
      = some "X" ∧
    (GetRocket (ingestAll [msgL1R, msgSI5R, msgEX2R]) "R").map RocketState.speed
      = some 500 ∧
    (GetRocket (ingestAll [msgL1R, msgSI5R, msgEX2R]) "R").map
        RocketState.lastProcessedMessageNumber = some 2 ∧
    GetDebugInfo (ingestAll [msgL1R, msgSI5R, msgEX2R]) "R" = (2, []) := by
  decide

/-! ### C2 — pending keys above the cursor / disjointness -/

/-- C2: the invariant is violated by an at-least-once redelivery.  Ingesting
`#1 SpeedIncreased` (buffered: no rocket yet), then `#2 Launched` (creates the
rocket, buffers `#2`), then `#1 SpeedIncreased` again (now applies in order
and drains `#2`) leaves the stale buffered copy of `#1` in the pending map:
its key `1` is `≤ lastApplied = 2`, and `1` is both applied and pending. -/
theorem c2_stale_pending_violation :
    okList [msgSI1R, msgL2R, msgSI1R] = [true, true, true] ∧
    ((ingestAll [msgSI1R, msgL2R, msgSI1R]).pendingFor "R").map Prod.fst = [1] ∧
    (ingestAll [msgSI1R, msgL2R, msgSI1R]).processedFor "R" = [1, 2] ∧
    (GetRocket (ingestAll [msgSI1R, msgL2R, msgSI1R]) "R").map
        RocketState.lastProcessedMessageNumber = some 2 := by
  decide

/-! ### C3 — materialization of the rocket -/

/-- C3: a `Launched` with number `2` on a fresh channel is buffered, yet the
rocket record is created immediately — `GetRocket` already returns a (zeroed)
state although no message at all has been applied — contradicting both
"materializes only once the cursor reaches that number" and
"state exists iff at least one `Launched` has been applied". -/
theorem c3_ghost_rocket_before_cursor :
    (ProcessMessage NewRocketRepository msgL2R).2 = true ∧
    GetRocket (ingestAll [msgL2R]) "R"
      = some ⟨"R", "", 0, "", false, "", 0, 0, 0⟩ ∧
    (ingestAll [msgL2R]).processedFor "R" = [] ∧
    GetDebugInfo (ingestAll [msgL2R]) "R" = (0, [2]) := by
  decide

/-! ### C6 — terminal gate on exploded rockets -/

theorem pendingFor_setPending (r : RocketRepository) (c : String)
    (pl : List (Int × RocketMessage)) :
    RocketRepository.pendingFor
      { r with pendingMessages := setKey r.pendingMessages c pl } c = pl := by
  unfold RocketRepository.pendingFor
  simp [lookupKey_setKey_self]

/-- C6: for every repository holding an exploded rocket on the envelope's
channel, and every in-order envelope (number = cursor + 1, not a duplicate)
whose kind is not `Launched`: the transition function returns
`accepted = false` without mutating anything, and `ProcessMessage` reports
`ok = false`, leaving the repository unchanged up to the (unobservable)
per-channel map initialization. -/
theorem c6_exploded_gate (r : RocketRepository) (m : RocketMessage) (ρ : RocketState)
    (hrock : GetRocket r m.GetChannel = some ρ)
    (hexp : ρ.exploded = true)
    (hkind : m.GetMessageType ≠ MessageTypeRocketLaunched)
    (hnum : m.GetMessageNumber = ρ.lastProcessedMessageNumber + 1)
    (hproc : m.GetMessageNumber ∉ r.processedFor m.GetChannel) :
    processMessageByType r ρ m = (ρ, r, false) ∧
    ProcessMessage r m = (initMaps r m.GetChannel, false) ∧
    (∀ id, GetRocket (ProcessMessage r m).1 id = GetRocket r id) ∧
    (∀ id, GetDebugInfo (ProcessMessage r m).1 id = GetDebugInfo r id) := by
  have hmain : ProcessMessage r m = (initMaps r m.GetChannel, false) := by
    rw [ProcessMessage_withRocket r m ρ hproc hrock]
    exact processInOrder_apply_fail _ _ _ _ _ _ _ hnum
      (processMessageByType_gate _ _ _ hexp hkind)
  refine ⟨processMessageByType_gate _ _ _ hexp hkind, hmain, fun id => ?_, fun id => ?_⟩
  · rw [hmain, GetRocket_initMaps]
  · rw [hmain, GetDebugInfo_initMaps]

/-- C6 witness: the gate at a concrete exploded repository and a concrete
in-order `SpeedIncreased`. -/
theorem c6_exploded_gate_witness :
    processMessageByType repoExp rocketExp msgSI3R = (rocketExp, repoExp, false) ∧
    ProcessMessage repoExp msgSI3R = (initMaps repoExp "R", false) := by
  have h := c6_exploded_gate repoExp msgSI3R rocketExp (by decide) (by decide)
    (by decide) (by decide) (by decide)
  exact ⟨h.1, h.2.1⟩

/-! ### C9 — unrecognized message types -/

/-- C9: an envelope whose `messageType` is none of the five constants never
mutates any rocket state.  When the channel has no rocket, or the number is
ahead of the cursor, it is buffered with `ok = true`; when it reaches
in-order application the default branch rejects it with `ok = false` and the
repository is unchanged up to map initialization. -/
theorem c9_unknown_kind (r : RocketRepository) (m : RocketMessage)
    (h1 : m.GetMessageType ≠ MessageTypeRocketLaunched)
    (h2 : m.GetMessageType ≠ MessageTypeRocketSpeedIncreased)
    (h3 : m.GetMessageType ≠ MessageTypeRocketSpeedDecreased)
    (h4 : m.GetMessageType ≠ MessageTypeRocketExploded)
    (h5 : m.GetMessageType ≠ MessageTypeRocketMissionChanged) :
    (ProcessMessage r m).1.rockets = r.rockets ∧
    (GetRocket r m.GetChannel = none →
      m.GetMessageNumber ∉ r.processedFor m.GetChannel →
      (ProcessMessage r m).2 = true ∧
      (ProcessMessage r m).1.pendingFor m.GetChannel
        = setKey (r.pendingFor m.GetChannel) m.GetMessageNumber m) ∧
    (∀ ρ, GetRocket r m.GetChannel = some ρ →
      m.GetMessageNumber ∉ r.processedFor m.GetChannel →
      m.GetMessageNumber = ρ.lastProcessedMessageNumber + 1 →
      ProcessMessage r m = (initMaps r m.GetChannel, false)) ∧
    (∀ ρ, GetRocket r m.GetChannel = some ρ →
      m.GetMessageNumber ∉ r.processedFor m.GetChannel →
      ρ.lastProcessedMessageNumber + 1 < m.GetMessageNumber →
      (ProcessMessage r m).2 = true ∧
      (ProcessMessage r m).1.pendingFor m.GetChannel
        = setKey (r.pendingFor m.GetChannel) m.GetMessageNumber m) := by
  refine ⟨?_, fun hrock hproc => ?_, fun ρ hrock hproc heq => ?_,
    fun ρ hrock hproc hlt => ?_⟩
  · by_cases hproc : m.GetMessageNumber ∈ r.processedFor m.GetChannel
    · rw [ProcessMessage_dedup r m hproc]
      simp only [initMaps_rockets]
    · rcases hrock : GetRocket r m.GetChannel with _ | ρ
      · rw [ProcessMessage_noRocket_nonLaunch r m hproc hrock h1]
        simp only [initMaps_rockets]
      · rw [ProcessMessage_withRocket r m ρ hproc hrock]
        rcases lt_trichotomy m.GetMessageNumber (ρ.lastProcessedMessageNumber + 1)
          with hc | hc | hc
        · rw [processInOrder_stale _ _ _ _ _ hc]
          simp only [initMaps_rockets]
        · rw [processInOrder_apply_fail _ _ _ _ _ _ _ hc
            (processMessageByType_default _ _ _ h1 h2 h3 h4 h5)]
          simp only [initMaps_rockets]
        · rw [processInOrder_buffer _ _ _ _ _ hc]
          simp only [initMaps_rockets]
  · rw [ProcessMessage_noRocket_nonLaunch r m hproc hrock h1]
    refine ⟨rfl, ?_⟩
    simp only [pendingFor_setPending, initMaps_pendingFor]
  · rw [ProcessMessage_withRocket r m ρ hproc hrock]
    exact processInOrder_apply_fail _ _ _ _ _ _ _ heq
      (processMessageByType_default _ _ _ h1 h2 h3 h4 h5)
  · rw [ProcessMessage_withRocket r m ρ hproc hrock,
      processInOrder_buffer _ _ _ _ _ hlt]
    refine ⟨rfl, ?_⟩
    simp only [pendingFor_setPending, initMaps_pendingFor]

/-- C9 witness: the unrecognized kind `"RocketTeleported"` is buffered on a
fresh repository with `ok = true` and touches no rocket state. -/
theorem c9_unknown_kind_witness :
    (ProcessMessage NewRocketRepository msgUnk7R).1.rockets
      = NewRocketRepository.rockets ∧
    (ProcessMessage NewRocketRepository msgUnk7R).2 = true := by
  have h := c9_unknown_kind NewRocketRepository msgUnk7R (by decide) (by decide)
    (by decide) (by decide) (by decide)
  exact ⟨h.1, (h.2.1 (by decide) (by decide)).1⟩

/-! ### C10 — rejected first launch still creates a visible record -/

/-- C10: on a channel with no rocket, an in-order `Launched` numbered `1`
whose payload has an empty type or mission is rejected (`ok = false`), yet
the zeroed rocket record has been created and is visible to `GetRocket` and
`GetAllRockets`. -/
theorem c10_invalid_first_launch (r : RocketRepository) (m : RocketMessage)
    (hrock : GetRocket r m.GetChannel = none)
    (hproc : m.GetMessageNumber ∉ r.processedFor m.GetChannel)
    (hty : m.GetMessageType = MessageTypeRocketLaunched)
    (hnum : m.GetMessageNumber = 1)
    (hbad : m.message.type = "" ∨ m.message.mission = "") :
    (ProcessMessage r m).2 = false ∧
    GetRocket (ProcessMessage r m).1 m.GetChannel
      = some (emptyRocketState m.GetChannel) ∧
    ({ id := m.GetChannel, type := "", speed := 0, mission := "",
       exploded := false, updatedAt := 0 } : RocketSummary)
      ∈ GetAllRockets (ProcessMessage r m).1 := by
  have heq : m.GetMessageNumber
      = (emptyRocketState m.GetChannel).lastProcessedMessageNumber + 1 := by
    simp [emptyRocketState, hnum]
  have hmain : ProcessMessage r m
      = ({ initMaps r m.GetChannel with
           rockets := setKey (initMaps r m.GetChannel).rockets m.GetChannel
             (emptyRocketState m.GetChannel) }, false) := by
    rw [ProcessMessage_noRocket_launch r m hproc hrock hty]
    refine processInOrder_apply_fail _ _ _ _ _ _ (emptyRocketState m.GetChannel) heq ?_
    unfold processMessageByType
    rw [if_neg (by simp [emptyRocketState]), if_pos hty, if_pos hbad]
  refine ⟨by rw [hmain], ?_, ?_⟩
  · rw [hmain]
    unfold GetRocket
    exact lookupKey_setKey_self _ _ _
  · rw [hmain]
    unfold GetAllRockets
    refine List.mem_map.mpr
      ⟨(m.GetChannel, emptyRocketState m.GetChannel), ?_, rfl⟩
    exact mem_setKey_self _ _ _

/-- C10 witness: a concrete first `Launched` with an empty mission on the
fresh repository. -/
theorem c10_invalid_first_launch_witness :
    (ProcessMessage NewRocketRepository msgBadL1R).2 = false ∧
    GetRocket (ProcessMessage NewRocketRepository msgBadL1R).1 "R"
      = some (emptyRocketState "R") := by
  have h := c10_invalid_first_launch NewRocketRepository msgBadL1R (by decide)
    (by decide) (by decide) (by decide) (by decide)
  exact ⟨h.1, h.2.1⟩

/-! ### Channel locality: `ProcessMessage` touches only its own channel -/

theorem lookupKey_mem {κ α : Type} [DecidableEq κ] (l : List (κ × α)) (k : κ)
    (v : α) (h : lookupKey l k = some v) : (k, v) ∈ l := by
  induction l with
  | nil => simp [lookupKey] at h
  | cons p rest ih =>
    obtain ⟨a, b⟩ := p
    by_cases hp : a = k
    · simp only [lookupKey, if_pos hp, Option.some.injEq] at h
      subst hp
      subst h
      exact List.mem_cons_self _ _
    · simp only [lookupKey, if_neg hp] at h
      exact List.mem_cons_of_mem _ (ih h)

theorem mem_setKey_sub {κ α : Type} [DecidableEq κ] (l : List (κ × α)) (k : κ)
    (v : α) (p : κ × α) (h : p ∈ setKey l k v) : p = (k, v) ∨ p ∈ l := by
  induction l with
  | nil => simpa [setKey] using h
  | cons p' rest ih =>
    by_cases hp : p'.1 = k
    · simp only [setKey, if_pos hp, List.mem_cons] at h
      rcases h with h | h
      · exact Or.inl h
      · exact Or.inr (List.mem_cons_of_mem _ h)
    · simp only [setKey, if_neg hp, List.mem_cons] at h
      rcases h with h | h
      · exact Or.inr (h ▸ List.mem_cons_self _ _)
      · rcases ih h with h' | h'
        · exact Or.inl h'
        · exact Or.inr (List.mem_cons_of_mem _ h')

theorem WellKeyed_GetRocket (r : RocketRepository) (c : String) (ρ : RocketState)
    (hwk : WellKeyed r) (h : GetRocket r c = some ρ) : ρ.id = c :=
  hwk (c, ρ) (lookupKey_mem _ _ _ h)

theorem WellKeyed_of_rockets_eq (r r' : RocketRepository)
    (h : r'.rockets = r.rockets) (hwk : WellKeyed r) : WellKeyed r' := by
  intro p hp
  exact hwk p (h ▸ hp)

theorem WellKeyed_set (r r' : RocketRepository) (c : String) (ρ : RocketState)
    (h : r'.rockets = setKey r.rockets c ρ)
    (hwk : WellKeyed r) (hid : ρ.id = c) : WellKeyed r' := by
  intro p hp
  rw [h] at hp
  rcases mem_setKey_sub _ _ _ _ hp with h' | h'
  · rw [h']; exact hid
  · exact hwk p h'

theorem processMessageByType_id (r : RocketRepository) (ρ : RocketState)
    (m : RocketMessage) : (processMessageByType r ρ m).1.id = ρ.id := by
  unfold processMessageByType
  dsimp only
  repeat' split
  all_goals rfl

theorem processMessageByType_rockets (r : RocketRepository) (ρ : RocketState)
    (m : RocketMessage) : (processMessageByType r ρ m).2.1.rockets = r.rockets := by
  unfold processMessageByType
  dsimp only
  repeat' split
  all_goals rfl

theorem processMessageByType_processedMessages (r : RocketRepository) (ρ : RocketState)
    (m : RocketMessage) :
    (processMessageByType r ρ m).2.1.processedMessages = r.processedMessages := by
  unfold processMessageByType
  dsimp only
  repeat' split
  all_goals rfl

theorem processMessageByType_pendingFor_ne (r : RocketRepository) (ρ : RocketState)
    (m : RocketMessage) (q : String) (hq : q ≠ ρ.id) :
    (processMessageByType r ρ m).2.1.pendingFor q = r.pendingFor q := by
  unfold processMessageByType
  dsimp only
  repeat' split
  all_goals (first
    | rfl
    | (unfold RocketRepository.pendingFor
       simp [lookupKey_setKey_ne _ _ _ _ hq]))

theorem recordApplied_rockets (r : RocketRepository) (c : String) (n : Int)
    (m : RocketMessage) (ρ' : RocketState) :
    (recordApplied r c n m ρ').rockets
      = setKey r.rockets c
          { ρ' with lastProcessedMessageNumber := n, updatedAt := m.GetMessageTime } := rfl

theorem recordApplied_processedMessages (r : RocketRepository) (c : String) (n : Int)
    (m : RocketMessage) (ρ' : RocketState) :
    (recordApplied r c n m ρ').processedMessages
      = setKey r.processedMessages c (insertNum (r.processedFor c) n) := rfl

theorem recordApplied_pendingMessages (r : RocketRepository) (c : String) (n : Int)
    (m : RocketMessage) (ρ' : RocketState) :
    (recordApplied r c n m ρ').pendingMessages = r.pendingMessages := rfl

theorem processMessageByType_components (r : RocketRepository) (ρ : RocketState)
    (m : RocketMessage) (ρ' : RocketState) (r' : RocketRepository) (ok : Bool)
    (h : processMessageByType r ρ m = (ρ', r', ok)) :
    ρ'.id = ρ.id ∧ r'.rockets = r.rockets ∧
    r'.processedMessages = r.processedMessages ∧
    (∀ q, q ≠ ρ.id → r'.pendingFor q = r.pendingFor q) := by
  refine ⟨?_, ?_, ?_, fun q hq => ?_⟩
  · have h5 := processMessageByType_id r ρ m
    rw [h] at h5
    exact h5
  · have h5 := processMessageByType_rockets r ρ m
    rw [h] at h5
    exact h5
  · have h5 := processMessageByType_processedMessages r ρ m
    rw [h] at h5
    exact h5
  · have h5 := processMessageByType_pendingFor_ne r ρ m q hq
    rw [h] at h5
    exact h5

theorem pendingFor_mk (a : List (String × RocketState))
    (b : List (String × List Int)) (c : List (String × List (Int × RocketMessage)))
    (q : String) :
    RocketRepository.pendingFor ⟨a, b, c⟩ q = (lookupKey c q).getD [] := rfl

theorem processedFor_mk (a : List (String × RocketState))
    (b : List (String × List Int)) (c : List (String × List (Int × RocketMessage)))
    (q : String) :
    RocketRepository.processedFor ⟨a, b, c⟩ q = (lookupKey b q).getD [] := rfl

theorem GetRocket_mk (a : List (String × RocketState))
    (b : List (String × List Int)) (c : List (String × List (Int × RocketMessage)))
    (q : String) :
    GetRocket ⟨a, b, c⟩ q = lookupKey a q := rfl

/-- Queries at a channel `q` other than the drained one are untouched by the
drain, and well-keyedness is preserved. -/
theorem drain_other (q : String) : ∀ (fuel : Nat) (r : RocketRepository) (c : String),
    q ≠ c → WellKeyed r →
    (GetRocket (processPendingMessages fuel r c) q = GetRocket r q ∧
     (processPendingMessages fuel r c).processedFor q = r.processedFor q ∧
     (processPendingMessages fuel r c).pendingFor q = r.pendingFor q) ∧
    WellKeyed (processPendingMessages fuel r c) := by
  intro fuel
  induction fuel with
  | zero => exact fun r c hq hwk => ⟨⟨rfl, rfl, rfl⟩, hwk⟩
  | succ fuel ih =>
    intro r c hq hwk
    rcases h1 : lookupKey r.rockets c with _ | ρ
    · have hstep : processPendingMessages (fuel + 1) r c = r := by
        simp only [processPendingMessages, h1]
      rw [hstep]
      exact ⟨⟨rfl, rfl, rfl⟩, hwk⟩
    · have hid : ρ.id = c := WellKeyed_GetRocket r c ρ hwk h1
      rcases h2 : lookupKey (r.pendingFor c) (ρ.lastProcessedMessageNumber + 1)
        with _ | msg
      · have hstep : processPendingMessages (fuel + 1) r c = r := by
          simp only [processPendingMessages, h1, h2]
        rw [hstep]
        exact ⟨⟨rfl, rfl, rfl⟩, hwk⟩
      · by_cases h3 : ρ.exploded = true ∧ msg.GetMessageType ≠ MessageTypeRocketLaunched
        · -- skip branch: erase the entry and continue
          have hstep : processPendingMessages (fuel + 1) r c
              = processPendingMessages fuel
                  { r with
                    pendingMessages := setKey r.pendingMessages c
                        (eraseKey (r.pendingFor c) (ρ.lastProcessedMessageNumber + 1)) } c := by
            simp only [processPendingMessages, h1, h2, if_pos h3]
          set r' : RocketRepository :=
            { r with
              pendingMessages := setKey r.pendingMessages c
                  (eraseKey (r.pendingFor c) (ρ.lastProcessedMessageNumber + 1)) } with hr'
          have hwk' : WellKeyed r' := WellKeyed_of_rockets_eq r r' rfl hwk
          have hih := ih r' c hq hwk'
          rw [hstep]
          refine ⟨⟨?_, ?_, ?_⟩, hih.2⟩
          · rw [hih.1.1]
            rfl
          · rw [hih.1.2.1]
            rfl
          · rw [hih.1.2.2, hr']
            show (lookupKey (setKey r.pendingMessages c
                (eraseKey (r.pendingFor c) (ρ.lastProcessedMessageNumber + 1))) q).getD []
              = r.pendingFor q
            rw [lookupKey_setKey_ne _ _ _ _ hq]
            rfl
        · rcases h4 : processMessageByType r ρ msg with ⟨ρ', r', ok⟩
          obtain ⟨hcid, hcrk, hcpm, hcpd⟩ :=
            processMessageByType_components r ρ msg ρ' r' ok h4
          have hqid : q ≠ ρ.id := by rw [hid]; exact hq
          cases ok
          · -- apply failed: erase the entry and stop
            have hstep : processPendingMessages (fuel + 1) r c
                = { r' with
                    pendingMessages := setKey r'.pendingMessages c
                        (eraseKey (r'.pendingFor c) (ρ.lastProcessedMessageNumber + 1)) } := by
              simp only [processPendingMessages, h1, h2, if_neg h3, h4]
            rw [hstep]
            refine ⟨⟨?_, ?_, ?_⟩, ?_⟩
            · show lookupKey r'.rockets q = lookupKey r.rockets q
              rw [hcrk]
            · show (lookupKey r'.processedMessages q).getD []
                = (lookupKey r.processedMessages q).getD []
              rw [hcpm]
            · show (lookupKey (setKey r'.pendingMessages c
                  (eraseKey (r'.pendingFor c) (ρ.lastProcessedMessageNumber + 1))) q).getD []
                = r.pendingFor q
              rw [lookupKey_setKey_ne _ _ _ _ hq]
              exact hcpd q hqid
            · exact WellKeyed_of_rockets_eq r _ hcrk hwk
          · -- apply succeeded: record, erase, recurse
            have hstep : processPendingMessages (fuel + 1) r c
                = processPendingMessages fuel
                    { recordApplied r' c (ρ.lastProcessedMessageNumber + 1) msg ρ' with
                      pendingMessages :=
                        setKey (recordApplied r' c (ρ.lastProcessedMessageNumber + 1) msg ρ').pendingMessages c
                          (eraseKey ((recordApplied r' c (ρ.lastProcessedMessageNumber + 1) msg ρ').pendingFor c)
                            (ρ.lastProcessedMessageNumber + 1)) } c := by
              simp only [processPendingMessages, h1, h2, if_neg h3, h4]
            set r3 : RocketRepository :=
              { recordApplied r' c (ρ.lastProcessedMessageNumber + 1) msg ρ' with
                pendingMessages :=
                  setKey (recordApplied r' c (ρ.lastProcessedMessageNumber + 1) msg ρ').pendingMessages c
                    (eraseKey ((recordApplied r' c (ρ.lastProcessedMessageNumber + 1) msg ρ').pendingFor c)
                      (ρ.lastProcessedMessageNumber + 1)) } with hr3
            have hwk3 : WellKeyed r3 := by
              refine WellKeyed_set r' r3 c
                { ρ' with
                  lastProcessedMessageNumber := ρ.lastProcessedMessageNumber + 1
                  updatedAt := msg.GetMessageTime }
                ?_ (WellKeyed_of_rockets_eq r r' hcrk hwk) ?_
              · rw [hr3]
                exact recordApplied_rockets r' c (ρ.lastProcessedMessageNumber + 1) msg ρ'
              · show ρ'.id = c
                rw [hcid, hid]
            have hih := ih r3 c hq hwk3
            rw [hstep]
            refine ⟨⟨?_, ?_, ?_⟩, hih.2⟩
            · rw [hih.1.1, hr3]
              show lookupKey (recordApplied r' c (ρ.lastProcessedMessageNumber + 1) msg ρ').rockets q
                = lookupKey r.rockets q
              rw [recordApplied_rockets, lookupKey_setKey_ne _ _ _ _ hq, hcrk]
            · rw [hih.1.2.1, hr3]
              show (lookupKey (recordApplied r' c (ρ.lastProcessedMessageNumber + 1) msg ρ').processedMessages q).getD []
                = (lookupKey r.processedMessages q).getD []
              rw [recordApplied_processedMessages, lookupKey_setKey_ne _ _ _ _ hq, hcpm]
            · rw [hih.1.2.2, hr3]
              show (lookupKey (setKey (recordApplied r' c (ρ.lastProcessedMessageNumber + 1) msg ρ').pendingMessages c
                  (eraseKey ((recordApplied r' c (ρ.lastProcessedMessageNumber + 1) msg ρ').pendingFor c)
                    (ρ.lastProcessedMessageNumber + 1))) q).getD []
                = r.pendingFor q
              rw [lookupKey_setKey_ne _ _ _ _ hq, recordApplied_pendingMessages]
              exact hcpd q hqid

theorem processInOrder_other (X : RocketRepository) (c : String) (n : Int)
    (m : RocketMessage) (ρ : RocketState) (q : String)
    (hq : q ≠ c) (hwk : WellKeyed X) (hid : ρ.id = c) :
    (GetRocket (processInOrder X c n m ρ).1 q = GetRocket X q ∧
     (processInOrder X c n m ρ).1.processedFor q = X.processedFor q ∧
     (processInOrder X c n m ρ).1.pendingFor q = X.pendingFor q) ∧
    WellKeyed (processInOrder X c n m ρ).1 := by
  rcases lt_trichotomy n (ρ.lastProcessedMessageNumber + 1) with hc | hc | hc
  · rw [processInOrder_stale _ _ _ _ _ hc]
    exact ⟨⟨rfl, rfl, rfl⟩, hwk⟩
  · rcases h4 : processMessageByType X ρ m with ⟨ρ', r', ok⟩
    obtain ⟨hcid, hcrk, hcpm, hcpd⟩ :=
      processMessageByType_components X ρ m ρ' r' ok h4
    have hqid : q ≠ ρ.id := by rw [hid]; exact hq
    cases ok
    · rw [processInOrder_apply_fail _ _ _ _ _ _ _ hc h4]
      refine ⟨⟨?_, ?_, ?_⟩, WellKeyed_of_rockets_eq X _ hcrk hwk⟩
      · show lookupKey r'.rockets q = lookupKey X.rockets q
        rw [hcrk]
      · show (lookupKey r'.processedMessages q).getD []
          = (lookupKey X.processedMessages q).getD []
        rw [hcpm]
      · exact hcpd q hqid
    · rw [processInOrder_apply_ok _ _ _ _ _ _ _ hc h4]
      have hwk2 : WellKeyed (recordApplied r' c n m ρ') := by
        refine WellKeyed_set r' (recordApplied r' c n m ρ') c
          { ρ' with
            lastProcessedMessageNumber := n
            updatedAt := m.GetMessageTime }
          ?_ (WellKeyed_of_rockets_eq X _ hcrk hwk) ?_
        · exact recordApplied_rockets r' c n m ρ'
        · show ρ'.id = c
          rw [hcid, hid]
      have hd := drain_other q (((recordApplied r' c n m ρ').pendingFor c).length)
        (recordApplied r' c n m ρ') c hq hwk2
      refine ⟨⟨?_, ?_, ?_⟩, hd.2⟩
      · rw [hd.1.1]
        show lookupKey (recordApplied r' c n m ρ').rockets q = lookupKey X.rockets q
        rw [recordApplied_rockets, lookupKey_setKey_ne _ _ _ _ hq, hcrk]
      · rw [hd.1.2.1]
        show (lookupKey (recordApplied r' c n m ρ').processedMessages q).getD []
          = (lookupKey X.processedMessages q).getD []
        rw [recordApplied_processedMessages, lookupKey_setKey_ne _ _ _ _ hq, hcpm]
      · rw [hd.1.2.2]
        show (lookupKey (recordApplied r' c n m ρ').pendingMessages q).getD []
          = X.pendingFor q
        rw [recordApplied_pendingMessages]
        exact hcpd q hqid
  · rw [processInOrder_buffer _ _ _ _ _ hc]
    refine ⟨⟨?_, ?_, ?_⟩, WellKeyed_of_rockets_eq X _ rfl hwk⟩
    · rfl
    · rfl
    · show (lookupKey (setKey X.pendingMessages c (setKey (X.pendingFor c) n m)) q).getD []
        = X.pendingFor q
      rw [lookupKey_setKey_ne _ _ _ _ hq]
      rfl

theorem WellKeyed_initMaps (r : RocketRepository) (id : String)
    (hwk : WellKeyed r) : WellKeyed (initMaps r id) :=
  WellKeyed_of_rockets_eq r _ (initMaps_rockets r id) hwk

/-- `ProcessMessage` touches only its own channel, and keeps the repository
well-keyed. -/
theorem ProcessMessage_other (r : RocketRepository) (m : RocketMessage) (q : String)
    (hq : q ≠ m.GetChannel) (hwk : WellKeyed r) :
    (GetRocket (ProcessMessage r m).1 q = GetRocket r q ∧
     (ProcessMessage r m).1.processedFor q = r.processedFor q ∧
     (ProcessMessage r m).1.pendingFor q = r.pendingFor q) ∧
    WellKeyed (ProcessMessage r m).1 := by
  have hinitq : GetRocket (initMaps r m.GetChannel) q = GetRocket r q :=
    GetRocket_initMaps r m.GetChannel q
  have hwkI : WellKeyed (initMaps r m.GetChannel) := WellKeyed_initMaps _ _ hwk
  by_cases hproc : m.GetMessageNumber ∈ r.processedFor m.GetChannel
  · rw [ProcessMessage_dedup r m hproc]
    exact ⟨⟨GetRocket_initMaps r _ q, initMaps_processedFor r _ q,
      initMaps_pendingFor r _ q⟩, hwkI⟩
  · rcases hrock : GetRocket r m.GetChannel with _ | ρ
    · by_cases hty : m.GetMessageType = MessageTypeRocketLaunched
      · rw [ProcessMessage_noRocket_launch r m hproc hrock hty]
        have hpo := processInOrder_other
          { initMaps r m.GetChannel with
            rockets := setKey (initMaps r m.GetChannel).rockets m.GetChannel
              (emptyRocketState m.GetChannel) }
          m.GetChannel m.GetMessageNumber m (emptyRocketState m.GetChannel) q hq
          (WellKeyed_set (initMaps r m.GetChannel) _ m.GetChannel
            (emptyRocketState m.GetChannel) rfl hwkI rfl)
          rfl
        refine ⟨⟨?_, ?_, ?_⟩, hpo.2⟩
        · rw [hpo.1.1]
          show lookupKey (setKey (initMaps r m.GetChannel).rockets m.GetChannel
            (emptyRocketState m.GetChannel)) q = lookupKey r.rockets q
          rw [lookupKey_setKey_ne _ _ _ _ hq, initMaps_rockets]
        · rw [hpo.1.2.1]
          show (initMaps r m.GetChannel).processedFor q = r.processedFor q
          exact initMaps_processedFor r _ q
        · rw [hpo.1.2.2]
          show (initMaps r m.GetChannel).pendingFor q = r.pendingFor q
          exact initMaps_pendingFor r _ q
      · rw [ProcessMessage_noRocket_nonLaunch r m hproc hrock hty]
        refine ⟨⟨?_, ?_, ?_⟩, ?_⟩
        · show lookupKey (initMaps r m.GetChannel).rockets q = lookupKey r.rockets q
          rw [initMaps_rockets]
        · show (initMaps r m.GetChannel).processedFor q = r.processedFor q
          exact initMaps_processedFor r _ q
        · show (lookupKey (setKey (initMaps r m.GetChannel).pendingMessages m.GetChannel
              (setKey ((initMaps r m.GetChannel).pendingFor m.GetChannel)
                m.GetMessageNumber m)) q).getD []
            = r.pendingFor q
          rw [lookupKey_setKey_ne _ _ _ _ hq]
          exact initMaps_pendingFor r _ q
        · exact WellKeyed_of_rockets_eq r _ (initMaps_rockets r _) hwk
    · have hidρ : ρ.id = m.GetChannel := WellKeyed_GetRocket r m.GetChannel ρ hwk hrock
      rw [ProcessMessage_withRocket r m ρ hproc hrock]
      have hpo := processInOrder_other (initMaps r m.GetChannel) m.GetChannel
        m.GetMessageNumber m ρ q hq hwkI hidρ
      refine ⟨⟨?_, ?_, ?_⟩, hpo.2⟩
      · rw [hpo.1.1]
        exact GetRocket_initMaps r _ q
      · rw [hpo.1.2.1]
        exact initMaps_processedFor r _ q
      · rw [hpo.1.2.2]
        exact initMaps_pendingFor r _ q


/-! ### C7 — diagnostics -/

theorem WellKeyed_new : WellKeyed NewRocketRepository := by
  intro p hp
  simp [NewRocketRepository] at hp

theorem mem_keys_iff_lookup_isSome {κ α : Type} [DecidableEq κ]
    (l : List (κ × α)) (k : κ) :
    k ∈ l.map Prod.fst ↔ (lookupKey l k).isSome = true := by
  induction l with
  | nil => simp [lookupKey]
  | cons p rest ih =>
    by_cases hp : p.1 = k
    · simp [lookupKey, hp]
    · simp [lookupKey, hp, ih, Ne.symm hp]

theorem ingestFrom_nil (r : RocketRepository) : ingestFrom r [] = r := rfl

theorem ingestFrom_cons (r : RocketRepository) (m : RocketMessage)
    (rest : List RocketMessage) :
    ingestFrom r (m :: rest) = ingestFrom (ProcessMessage r m).1 rest := rfl

theorem ingestAll_eq (msgs : List RocketMessage) :
    ingestAll msgs = ingestFrom NewRocketRepository msgs := rfl

/-- A whole stream that never mentions channel `q` leaves `q`'s slices
untouched (and preserves well-keyedness). -/
theorem ingestFrom_untouched (q : String) (msgs : List RocketMessage)
    (h : ∀ m ∈ msgs, m.GetChannel ≠ q) :
    ∀ r : RocketRepository, WellKeyed r →
    (GetRocket (ingestFrom r msgs) q = GetRocket r q ∧
     (ingestFrom r msgs).processedFor q = r.processedFor q ∧
     (ingestFrom r msgs).pendingFor q = r.pendingFor q) ∧
    WellKeyed (ingestFrom r msgs) := by
  induction msgs with
  | nil => exact fun r hwk => ⟨⟨rfl, rfl, rfl⟩, hwk⟩
  | cons m rest ih =>
    intro r hwk
    have hq : q ≠ m.GetChannel := Ne.symm (h m (List.mem_cons_self _ _))
    have h1 := ProcessMessage_other r m q hq hwk
    have h2 := (ih (fun m' hm' => h m' (List.mem_cons_of_mem _ hm')))
      (ProcessMessage r m).1 h1.2
    rw [ingestFrom_cons]
    refine ⟨⟨?_, ?_, ?_⟩, h2.2⟩
    · rw [h2.1.1, h1.1.1]
    · rw [h2.1.2.1, h1.1.2.1]
    · rw [h2.1.2.2, h1.1.2.2]

/-- C7 counterexample: buffering `#5` then `#3` on a fresh channel makes the
diagnostics report the pending numbers `[5, 3]` — the map order, which is not
sorted — refuting "reports the pending message numbers as a sorted list". -/
theorem c7_pending_numbers_not_sorted :
    (GetDebugInfo (ingestAll [msgSI5R, msgSI3R]) "R").2 = [5, 3] ∧
    ¬ List.Sorted (· ≤ ·) ((GetDebugInfo (ingestAll [msgSI5R, msgSI3R]) "R").2) := by
  decide

/-- C7 (amended): diagnostics for one channel report the processed count and
the pending message numbers in buffer (map) order — exactly the keys holding
a pending envelope, with no sortedness guarantee — and diagnostics for a
channel id that appears nowhere in the ingested stream return `(0, [])`. -/
theorem c7_diagnostics (msgs : List RocketMessage) (q : String)
    (hq : ∀ m ∈ msgs, m.GetChannel ≠ q)
    (r : RocketRepository) (id : String) :
    GetDebugInfo (ingestAll msgs) q = (0, []) ∧
    (GetDebugInfo r id).1 = (r.processedFor id).length ∧
    (∀ k : Int, k ∈ (GetDebugInfo r id).2
      ↔ (lookupKey (r.pendingFor id) k).isSome = true) := by
  refine ⟨?_, rfl, fun k => mem_keys_iff_lookup_isSome _ _⟩
  have h := ingestFrom_untouched q msgs hq NewRocketRepository WellKeyed_new
  unfold GetDebugInfo
  rw [ingestAll_eq, h.1.2.1, h.1.2.2]
  rfl

/-- C7 witness: a concrete stream on channel `"R"` and the unknown id `"Q"`. -/
theorem c7_diagnostics_witness :
    GetDebugInfo (ingestAll [msgL1R]) "Q" = (0, []) :=
  (c7_diagnostics [msgL1R] "Q" (by decide) NewRocketRepository "R").1

/-! ### C8 — speed is never negative -/

theorem eraseKey_sub {κ α : Type} [DecidableEq κ] (l : List (κ × α)) (k : κ)
    (p : κ × α) (h : p ∈ eraseKey l k) : p ∈ l := by
  induction l with
  | nil => simp [eraseKey] at h
  | cons p' rest ih =>
    by_cases hp : p'.1 = k
    · simp only [eraseKey, if_pos hp] at h
      exact List.mem_cons_of_mem _ (ih h)
    · simp only [eraseKey, if_neg hp, List.mem_cons] at h
      rcases h with h | h
      · exact h ▸ List.mem_cons_self _ _
      · exact List.mem_cons_of_mem _ (ih h)

theorem processMessageByType_speed (r : RocketRepository) (ρ : RocketState)
    (m : RocketMessage) (hρ : 0 ≤ ρ.speed) (hm : launchOK m) :
    0 ≤ (processMessageByType r ρ m).1.speed := by
  unfold processMessageByType
  dsimp only
  repeat' split
  all_goals dsimp only
  all_goals first
    | exact hρ
    | (exact hm (by assumption))
    | omega

theorem processMessageByType_pendingFor_sub (r : RocketRepository) (ρ : RocketState)
    (m : RocketMessage) (q : String) (pm : Int × RocketMessage)
    (h : pm ∈ (processMessageByType r ρ m).2.1.pendingFor q) : pm ∈ r.pendingFor q := by
  by_cases hq : q = ρ.id
  · subst hq
    unfold processMessageByType at h
    dsimp only at h
    repeat' split at h
    all_goals dsimp only at h
    all_goals try exact h
    rename_i pend hpend
    rw [pendingFor_setPending] at h
    have hrp : r.pendingFor ρ.id = pend := by
      unfold RocketRepository.pendingFor
      rw [hpend]
      rfl
    rw [hrp]
    exact List.mem_of_mem_filter h
  · have h5 := processMessageByType_pendingFor_ne r ρ m q hq
    rw [h5] at h
    exact h

theorem pendingFor_setPending_ne (X : RocketRepository) (c q : String)
    (pl : List (Int × RocketMessage)) (hq : q ≠ c) :
    RocketRepository.pendingFor
      { X with pendingMessages := setKey X.pendingMessages c pl } q
      = X.pendingFor q := by
  unfold RocketRepository.pendingFor
  show (lookupKey (setKey X.pendingMessages c pl) q).getD [] = _
  rw [lookupKey_setKey_ne _ _ _ _ hq]

theorem SpeedOK_sub (X Y : RocketRepository)
    (hrk : Y.rockets = X.rockets)
    (hpd : ∀ q pm, pm ∈ Y.pendingFor q → pm ∈ X.pendingFor q)
    (h : SpeedOK X) : SpeedOK Y :=
  ⟨fun c ρ hρ => h.1 c ρ (by unfold GetRocket at hρ ⊢; rw [hrk] at hρ; exact hρ),
   fun q pm hpm => h.2 q pm (hpd q pm hpm)⟩

theorem SpeedOK_setPending (X : RocketRepository) (c : String)
    (pl : List (Int × RocketMessage))
    (hpl : ∀ pm ∈ pl, pm ∈ X.pendingFor c ∨ launchOK pm.2)
    (h : SpeedOK X) :
    SpeedOK { X with pendingMessages := setKey X.pendingMessages c pl } := by
  refine ⟨fun c' ρ hρ => h.1 c' ρ hρ, fun q pm hpm => ?_⟩
  by_cases hq : q = c
  · subst hq
    rw [pendingFor_setPending] at hpm
    rcases hpl pm hpm with h' | h'
    · exact h.2 _ pm h'
    · exact h'
  · rw [pendingFor_setPending_ne _ _ _ _ hq] at hpm
    exact h.2 q pm hpm

theorem drain_SpeedOK : ∀ (fuel : Nat) (r : RocketRepository) (c : String),
    SpeedOK r → SpeedOK (processPendingMessages fuel r c) := by
  intro fuel
  induction fuel with
  | zero => exact fun r c h => h
  | succ fuel ih =>
    intro r c hs
    rcases h1 : lookupKey r.rockets c with _ | ρ
    · rw [show processPendingMessages (fuel + 1) r c = r by
        simp only [processPendingMessages, h1]]
      exact hs
    · rcases h2 : lookupKey (r.pendingFor c) (ρ.lastProcessedMessageNumber + 1)
        with _ | msg
      · rw [show processPendingMessages (fuel + 1) r c = r by
          simp only [processPendingMessages, h1, h2]]
        exact hs
      · have hmsg : launchOK msg :=
          hs.2 c (ρ.lastProcessedMessageNumber + 1, msg) (lookupKey_mem _ _ _ h2)
        by_cases h3 : ρ.exploded = true ∧ msg.GetMessageType ≠ MessageTypeRocketLaunched
        · rw [show processPendingMessages (fuel + 1) r c
              = processPendingMessages fuel
                  { r with
                    pendingMessages := setKey r.pendingMessages c
                        (eraseKey (r.pendingFor c) (ρ.lastProcessedMessageNumber + 1)) } c by
            simp only [processPendingMessages, h1, h2, if_pos h3]]
          refine ih _ c (SpeedOK_setPending r c _ (fun pm hpm => ?_) hs)
          exact Or.inl (eraseKey_sub _ _ _ hpm)
        · rcases h4 : processMessageByType r ρ msg with ⟨ρ', r', ok⟩
          obtain ⟨hcid, hcrk, hcpm, hcpd⟩ :=
            processMessageByType_components r ρ msg ρ' r' ok h4
          have hsub' : ∀ q pm, pm ∈ r'.pendingFor q → pm ∈ r.pendingFor q := by
            intro q pm hpm
            have h5 := processMessageByType_pendingFor_sub r ρ msg q pm
            rw [h4] at h5
            exact h5 hpm
          have hs' : SpeedOK r' := SpeedOK_sub r r' hcrk hsub' hs
          cases ok
          · rw [show processPendingMessages (fuel + 1) r c
                = { r' with
                    pendingMessages := setKey r'.pendingMessages c
                        (eraseKey (r'.pendingFor c) (ρ.lastProcessedMessageNumber + 1)) } by
              simp only [processPendingMessages, h1, h2, if_neg h3, h4]]
            exact SpeedOK_setPending r' c _
              (fun pm hpm => Or.inl (eraseKey_sub _ _ _ hpm)) hs'
          · have hspeed : 0 ≤ ρ'.speed := by
              have h5 := processMessageByType_speed r ρ msg (hs.1 c ρ h1) hmsg
              rw [h4] at h5
              exact h5
            rw [show processPendingMessages (fuel + 1) r c
                = processPendingMessages fuel
                    { recordApplied r' c (ρ.lastProcessedMessageNumber + 1) msg ρ' with
                      pendingMessages :=
                        setKey (recordApplied r' c (ρ.lastProcessedMessageNumber + 1) msg ρ').pendingMessages c
                          (eraseKey ((recordApplied r' c (ρ.lastProcessedMessageNumber + 1) msg ρ').pendingFor c)
                            (ρ.lastProcessedMessageNumber + 1)) } c by
              simp only [processPendingMessages, h1, h2, if_neg h3, h4]]
            refine ih _ c ?_
            have hsRec : SpeedOK (recordApplied r' c (ρ.lastProcessedMessageNumber + 1) msg ρ') := by
              constructor
              · intro c' σ hσ
                rw [show GetRocket (recordApplied r' c (ρ.lastProcessedMessageNumber + 1) msg ρ') c'
                    = lookupKey (setKey r'.rockets c
                        { ρ' with
                          lastProcessedMessageNumber := ρ.lastProcessedMessageNumber + 1
                          updatedAt := msg.GetMessageTime }) c' by
                  unfold GetRocket
                  rw [recordApplied_rockets]] at hσ
                by_cases hc' : c' = c
                · subst hc'
                  rw [lookupKey_setKey_self] at hσ
                  cases hσ
                  exact hspeed
                · rw [lookupKey_setKey_ne _ _ _ _ hc'] at hσ
                  exact hs'.1 c' σ hσ
              · intro q pm hpm
                have : RocketRepository.pendingFor
                    (recordApplied r' c (ρ.lastProcessedMessageNumber + 1) msg ρ') q
                    = r'.pendingFor q := by
                  unfold RocketRepository.pendingFor
                  rw [recordApplied_pendingMessages]
                rw [this] at hpm
                exact hs'.2 q pm hpm
            refine SpeedOK_setPending _ c _ (fun pm hpm => Or.inl ?_) hsRec
            exact eraseKey_sub _ _ _ hpm


theorem processInOrder_SpeedOK (X : RocketRepository) (c : String) (n : Int)
    (m : RocketMessage) (ρ : RocketState) (hs : SpeedOK X)
    (hρ : 0 ≤ ρ.speed) (hm : launchOK m) :
    SpeedOK (processInOrder X c n m ρ).1 := by
  rcases lt_trichotomy n (ρ.lastProcessedMessageNumber + 1) with hc | hc | hc
  · rw [processInOrder_stale _ _ _ _ _ hc]
    exact hs
  · rcases h4 : processMessageByType X ρ m with ⟨ρ', r', ok⟩
    obtain ⟨hcid, hcrk, hcpm, hcpd⟩ :=
      processMessageByType_components X ρ m ρ' r' ok h4
    have hsub' : ∀ q pm, pm ∈ r'.pendingFor q → pm ∈ X.pendingFor q := by
      intro q pm hpm
      have h5 := processMessageByType_pendingFor_sub X ρ m q pm
      rw [h4] at h5
      exact h5 hpm
    have hs' : SpeedOK r' := SpeedOK_sub X r' hcrk hsub' hs
    cases ok
    · rw [processInOrder_apply_fail _ _ _ _ _ _ _ hc h4]
      exact hs'
    · rw [processInOrder_apply_ok _ _ _ _ _ _ _ hc h4]
      have hspeed : 0 ≤ ρ'.speed := by
        have h5 := processMessageByType_speed X ρ m hρ hm
        rw [h4] at h5
        exact h5
      refine drain_SpeedOK _ _ c ?_
      have hsRec : SpeedOK (recordApplied r' c n m ρ') := by
        constructor
        · intro c' σ hσ
          rw [show GetRocket (recordApplied r' c n m ρ') c'
              = lookupKey (setKey r'.rockets c
                  { ρ' with
                    lastProcessedMessageNumber := n
                    updatedAt := m.GetMessageTime }) c' by
            unfold GetRocket
            rw [recordApplied_rockets]] at hσ
          by_cases hc' : c' = c
          · subst hc'
            rw [lookupKey_setKey_self] at hσ
            cases hσ
            exact hspeed
          · rw [lookupKey_setKey_ne _ _ _ _ hc'] at hσ
            exact hs'.1 c' σ hσ
        · intro q pm hpm
          have heq : RocketRepository.pendingFor (recordApplied r' c n m ρ') q
              = r'.pendingFor q := by
            unfold RocketRepository.pendingFor
            rw [recordApplied_pendingMessages]
          rw [heq] at hpm
          exact hs'.2 q pm hpm
      exact hsRec
  · rw [processInOrder_buffer _ _ _ _ _ hc]
    refine SpeedOK_setPending X c _ (fun pm hpm => ?_) hs
    rcases mem_setKey_sub _ _ _ _ hpm with h' | h'
    · rw [h']
      exact Or.inr hm
    · exact Or.inl h'

theorem SpeedOK_initMaps (r : RocketRepository) (id : String) (hs : SpeedOK r) :
    SpeedOK (initMaps r id) := by
  constructor
  · intro c ρ h
    rw [GetRocket_initMaps] at h
    exact hs.1 c ρ h
  · intro q pm h
    rw [initMaps_pendingFor] at h
    exact hs.2 q pm h

theorem ProcessMessage_SpeedOK (r : RocketRepository) (m : RocketMessage)
    (hs : SpeedOK r) (hm : launchOK m) : SpeedOK (ProcessMessage r m).1 := by
  have hsI : SpeedOK (initMaps r m.GetChannel) := SpeedOK_initMaps r _ hs
  by_cases hproc : m.GetMessageNumber ∈ r.processedFor m.GetChannel
  · rw [ProcessMessage_dedup r m hproc]
    exact hsI
  · rcases hrock : GetRocket r m.GetChannel with _ | ρ
    · by_cases hty : m.GetMessageType = MessageTypeRocketLaunched
      · rw [ProcessMessage_noRocket_launch r m hproc hrock hty]
        refine processInOrder_SpeedOK _ _ _ _ _ ?_ (by simp [emptyRocketState]) hm
        constructor
        · intro c' σ h
          rw [show GetRocket
              { initMaps r m.GetChannel with
                rockets := setKey (initMaps r m.GetChannel).rockets m.GetChannel
                  (emptyRocketState m.GetChannel) } c'
              = lookupKey (setKey (initMaps r m.GetChannel).rockets m.GetChannel
                  (emptyRocketState m.GetChannel)) c' from rfl] at h
          by_cases hc' : c' = m.GetChannel
          · subst hc'
            rw [lookupKey_setKey_self] at h
            cases h
            simp [emptyRocketState]
          · rw [lookupKey_setKey_ne _ _ _ _ hc'] at h
            exact hsI.1 c' σ h
        · intro q pm h
          exact hsI.2 q pm h
      · rw [ProcessMessage_noRocket_nonLaunch r m hproc hrock hty]
        refine SpeedOK_setPending _ _ _ (fun pm hpm => ?_) hsI
        rcases mem_setKey_sub _ _ _ _ hpm with h' | h'
        · rw [h']
          exact Or.inr hm
        · exact Or.inl h'
    · rw [ProcessMessage_withRocket r m ρ hproc hrock]
      exact processInOrder_SpeedOK _ _ _ _ _ hsI (hs.1 _ ρ hrock) hm

theorem SpeedOK_new : SpeedOK NewRocketRepository := by
  constructor
  · intro c ρ h
    simp [GetRocket, NewRocketRepository, lookupKey] at h
  · intro q pm h
    simp [RocketRepository.pendingFor, NewRocketRepository, lookupKey] at h

theorem ingestFrom_SpeedOK (msgs : List RocketMessage)
    (h : ∀ m ∈ msgs, launchOK m) :
    ∀ r : RocketRepository, SpeedOK r → SpeedOK (ingestFrom r msgs) := by
  induction msgs with
  | nil => exact fun r hs => hs
  | cons m rest ih =>
    intro r hs
    rw [ingestFrom_cons]
    exact ih (fun m' hm' => h m' (List.mem_cons_of_mem _ hm')) _
      (ProcessMessage_SpeedOK r m hs (h m (List.mem_cons_self _ _)))

/-- The drain stops immediately when nothing is pending at the cursor. -/
theorem drain_stop (fuel : Nat) (r : RocketRepository) (c : String) (ρ : RocketState)
    (h1 : lookupKey r.rockets c = some ρ)
    (h2 : lookupKey (r.pendingFor c) (ρ.lastProcessedMessageNumber + 1) = none) :
    processPendingMessages fuel r c = r := by
  cases fuel <;> simp only [processPendingMessages, h1, h2]

/-- `SpeedDecreased` with `by` above the current speed floors at zero. -/
theorem processMessageByType_SD (r : RocketRepository) (ρ : RocketState)
    (m : RocketMessage) (hexp : ρ.exploded = false)
    (hty : m.GetMessageType = MessageTypeRocketSpeedDecreased)
    (hsp : 0 ≤ ρ.speed) (hby : ρ.speed < m.message.by_) :
    processMessageByType r ρ m = ({ ρ with speed := 0 }, r, true) := by
  unfold processMessageByType
  rw [if_neg (by rw [hexp]; simp), if_neg (by rw [hty]; decide),
    if_neg (by rw [hty]; decide), if_pos hty, if_neg (by omega)]
  simp [show ρ.speed - m.message.by_ < 0 by omega]

/-- C8: under the data-model precondition that every `Launched` payload has
`launchSpeed ≥ 0`, every rocket reachable from the fresh repository has
`speed ≥ 0`; and an in-order `SpeedDecreased` with `by` greater than the
current speed is accepted (`ok = true`) and floors the speed at `0`. -/
theorem c8_speed_never_negative (msgs : List RocketMessage)
    (hmsgs : ∀ m ∈ msgs, launchOK m) (c : String) (ρ : RocketState)
    (hρ : GetRocket (ingestAll msgs) c = some ρ)
    (r : RocketRepository) (m : RocketMessage) (σ : RocketState)
    (hr : GetRocket r m.GetChannel = some σ) (hexp : σ.exploded = false)
    (hsp : 0 ≤ σ.speed) (hty : m.GetMessageType = MessageTypeRocketSpeedDecreased)
    (hby : σ.speed < m.message.by_)
    (hnum : m.GetMessageNumber = σ.lastProcessedMessageNumber + 1)
    (hproc : m.GetMessageNumber ∉ r.processedFor m.GetChannel)
    (hpend : lookupKey (r.pendingFor m.GetChannel) (m.GetMessageNumber + 1) = none) :
    0 ≤ ρ.speed ∧
    (ProcessMessage r m).2 = true ∧
    GetRocket (ProcessMessage r m).1 m.GetChannel
      = some { σ with
               speed := 0
               lastProcessedMessageNumber := m.GetMessageNumber
               updatedAt := m.GetMessageTime } := by
  have hg : lookupKey (recordApplied (initMaps r m.GetChannel) m.GetChannel
      m.GetMessageNumber m { σ with speed := 0 }).rockets m.GetChannel
      = some { σ with
               speed := 0
               lastProcessedMessageNumber := m.GetMessageNumber
               updatedAt := m.GetMessageTime } := by
    rw [recordApplied_rockets, lookupKey_setKey_self]
  have hpend2 : lookupKey
      ((recordApplied (initMaps r m.GetChannel) m.GetChannel
        m.GetMessageNumber m { σ with speed := 0 }).pendingFor m.GetChannel)
      (({ σ with
          speed := 0
          lastProcessedMessageNumber := m.GetMessageNumber
          updatedAt := m.GetMessageTime } : RocketState).lastProcessedMessageNumber + 1)
      = none := by
    have heq : RocketRepository.pendingFor
        (recordApplied (initMaps r m.GetChannel) m.GetChannel
          m.GetMessageNumber m { σ with speed := 0 }) m.GetChannel
        = (initMaps r m.GetChannel).pendingFor m.GetChannel := by
      unfold RocketRepository.pendingFor
      rw [recordApplied_pendingMessages]
    rw [heq, initMaps_pendingFor]
    exact hpend
  have hP : ProcessMessage r m
      = (recordApplied (initMaps r m.GetChannel) m.GetChannel m.GetMessageNumber m
          { σ with speed := 0 }, true) := by
    have happ := processMessageByType_SD (initMaps r m.GetChannel) σ m hexp hty hsp hby
    rw [ProcessMessage_withRocket r m σ hproc hr,
      processInOrder_apply_ok _ _ _ _ _ _ _ hnum happ,
      drain_stop _ _ _ _ hg hpend2]
  refine ⟨?_, by rw [hP], ?_⟩
  · have hs := ingestFrom_SpeedOK msgs hmsgs NewRocketRepository SpeedOK_new
    rw [ingestAll_eq] at hρ
    exact hs.1 c ρ hρ
  · rw [hP]
    unfold GetRocket
    exact hg

/-- C8 witness: a single valid launch stream, and a concrete in-order
`SpeedDecreased{by:800}` on a rocket flying at speed `500`. -/
theorem c8_speed_never_negative_witness :
    (0 : Int) ≤ 500 ∧
    (ProcessMessage repoRun msgSD2R).2 = true ∧
    GetRocket (ProcessMessage repoRun msgSD2R).1 "R"
      = some { rocketRun with
               speed := 0
               lastProcessedMessageNumber := 2
               updatedAt := 20 } := by
  have h := c8_speed_never_negative [msgL1R] (by decide) "R"
    { id := "R", type := "Falcon-9", speed := 500, mission := "ARTEMIS",
      exploded := false, reason := "", createdAt := 10, updatedAt := 10,
      lastProcessedMessageNumber := 1 }
    (by decide) repoRun msgSD2R rocketRun (by decide) (by decide) (by decide)
    (by decide) (by decide) (by decide) (by decide) (by decide)
  exact ⟨by decide, h.2.1, h.2.2⟩


/-! ### C4 — idempotence of duplicate ingestion -/

theorem lookupKey_setKey_pres {κ α : Type} [DecidableEq κ] (l : List (κ × α))
    (k k' : κ) (v : α) (h : lookupKey l k ≠ none) :
    lookupKey (setKey l k' v) k ≠ none := by
  by_cases hk : k = k'
  · subst hk
    rw [lookupKey_setKey_self]
    simp
  · rw [lookupKey_setKey_ne _ _ _ _ hk]
    exact h

theorem lookupKey_setKey_self_pres {κ α : Type} [DecidableEq κ] (l : List (κ × α))
    (k : κ) (v : α) : lookupKey (setKey l k v) k ≠ none := by
  rw [lookupKey_setKey_self]
  simp

theorem KeysAt_initMaps (r : RocketRepository) (c : String) :
    KeysAt c (initMaps r c) := by
  unfold initMaps KeysAt
  rcases h1 : lookupKey r.processedMessages c with _ | l1 <;>
    rcases h2 : lookupKey r.pendingMessages c with _ | l2 <;>
      simp only [h1, h2] <;>
      constructor <;>
      simp [lookupKey_setKey_self, h1, h2]

theorem processedFor_congr (r r' : RocketRepository) (q : String)
    (h : r'.processedMessages = r.processedMessages) :
    r'.processedFor q = r.processedFor q := by
  unfold RocketRepository.processedFor
  rw [h]

theorem processMessageByType_pendingMessages_shape (r : RocketRepository)
    (ρ : RocketState) (m : RocketMessage) :
    (processMessageByType r ρ m).2.1.pendingMessages = r.pendingMessages ∨
    ∃ pl, (processMessageByType r ρ m).2.1.pendingMessages
      = setKey r.pendingMessages ρ.id pl := by
  unfold processMessageByType
  dsimp only
  repeat' split
  all_goals first
    | exact Or.inl rfl
    | exact Or.inr ⟨_, rfl⟩

theorem processMessageByType_false_components (r : RocketRepository)
    (ρ : RocketState) (m : RocketMessage) (ρ' : RocketState) (r' : RocketRepository)
    (h : processMessageByType r ρ m = (ρ', r', false)) : ρ' = ρ ∧ r' = r := by
  unfold processMessageByType at h
  dsimp only at h
  repeat' split at h
  all_goals simp only [Prod.mk.injEq] at h
  all_goals first
    | exact ⟨h.1.symm, h.2.1.symm⟩
    | exact absurd h.2.2 (by decide)

theorem KeysAt_pMBT (c : String) (r : RocketRepository) (ρ : RocketState)
    (m : RocketMessage) (h : KeysAt c r) :
    KeysAt c (processMessageByType r ρ m).2.1 := by
  constructor
  · rw [show (processMessageByType r ρ m).2.1.processedMessages = r.processedMessages
      from processMessageByType_processedMessages r ρ m]
    exact h.1
  · rcases processMessageByType_pendingMessages_shape r ρ m with hs | ⟨pl, hs⟩
    · rw [hs]
      exact h.2
    · rw [hs]
      exact lookupKey_setKey_pres _ _ _ _ h.2

theorem KeysAt_recordApplied (c c' : String) (r : RocketRepository) (n : Int)
    (m : RocketMessage) (ρ' : RocketState) (h : KeysAt c r) :
    KeysAt c (recordApplied r c' n m ρ') := by
  constructor
  · rw [show (recordApplied r c' n m ρ').processedMessages
      = setKey r.processedMessages c' (insertNum (r.processedFor c') n)
      from recordApplied_processedMessages r c' n m ρ']
    exact lookupKey_setKey_pres _ _ _ _ h.1
  · rw [show (recordApplied r c' n m ρ').pendingMessages = r.pendingMessages
      from recordApplied_pendingMessages r c' n m ρ']
    exact h.2

theorem KeysAt_setPending (c c' : String) (r : RocketRepository)
    (pl : List (Int × RocketMessage)) (h : KeysAt c r) :
    KeysAt c { r with pendingMessages := setKey r.pendingMessages c' pl } :=
  ⟨h.1, lookupKey_setKey_pres _ _ _ _ h.2⟩

theorem drain_KeysAt (c' : String) : ∀ (fuel : Nat) (r : RocketRepository) (c : String),
    KeysAt c' r → KeysAt c' (processPendingMessages fuel r c) := by
  intro fuel
  induction fuel with
  | zero => exact fun r c h => h
  | succ fuel ih =>
    intro r c hk
    rcases h1 : lookupKey r.rockets c with _ | ρ
    · rw [show processPendingMessages (fuel + 1) r c = r by
        simp only [processPendingMessages, h1]]
      exact hk
    · rcases h2 : lookupKey (r.pendingFor c) (ρ.lastProcessedMessageNumber + 1)
        with _ | msg
      · rw [show processPendingMessages (fuel + 1) r c = r by
          simp only [processPendingMessages, h1, h2]]
        exact hk
      · by_cases h3 : ρ.exploded = true ∧ msg.GetMessageType ≠ MessageTypeRocketLaunched
        · rw [show processPendingMessages (fuel + 1) r c
              = processPendingMessages fuel
                  { r with
                    pendingMessages := setKey r.pendingMessages c
                        (eraseKey (r.pendingFor c) (ρ.lastProcessedMessageNumber + 1)) } c by
            simp only [processPendingMessages, h1, h2, if_pos h3]]
          exact ih _ c (KeysAt_setPending _ _ _ _ hk)
        · rcases h4 : processMessageByType r ρ msg with ⟨ρ', r', ok⟩
          have hk' : KeysAt c' r' := by
            have h5 := KeysAt_pMBT c' r ρ msg hk
            rw [h4] at h5
            exact h5
          cases ok
          · rw [show processPendingMessages (fuel + 1) r c
                = { r' with
                    pendingMessages := setKey r'.pendingMessages c
                        (eraseKey (r'.pendingFor c) (ρ.lastProcessedMessageNumber + 1)) } by
              simp only [processPendingMessages, h1, h2, if_neg h3, h4]]
            exact KeysAt_setPending _ _ _ _ hk'
          · rw [show processPendingMessages (fuel + 1) r c
                = processPendingMessages fuel
                    { recordApplied r' c (ρ.lastProcessedMessageNumber + 1) msg ρ' with
                      pendingMessages :=
                        setKey (recordApplied r' c (ρ.lastProcessedMessageNumber + 1) msg ρ').pendingMessages c
                          (eraseKey ((recordApplied r' c (ρ.lastProcessedMessageNumber + 1) msg ρ').pendingFor c)
                            (ρ.lastProcessedMessageNumber + 1)) } c by
              simp only [processPendingMessages, h1, h2, if_neg h3, h4]]
            exact ih _ c (KeysAt_setPending _ _ _ _ (KeysAt_recordApplied _ _ _ _ _ _ hk'))

theorem mem_insertNum (l : List Int) (n k : Int) (h : k ∈ l) : k ∈ insertNum l n := by
  unfold insertNum
  split
  · exact h
  · exact List.mem_append_left _ h

theorem mem_insertNum_self (l : List Int) (n : Int) : n ∈ insertNum l n := by
  unfold insertNum
  split
  · assumption
  · simp

theorem drain_processed_mem (k : Int) :
    ∀ (fuel : Nat) (r : RocketRepository) (c : String),
    k ∈ r.processedFor c → k ∈ (processPendingMessages fuel r c).processedFor c := by
  intro fuel
  induction fuel with
  | zero => exact fun r c h => h
  | succ fuel ih =>
    intro r c hmem
    rcases h1 : lookupKey r.rockets c with _ | ρ
    · rw [show processPendingMessages (fuel + 1) r c = r by
        simp only [processPendingMessages, h1]]
      exact hmem
    · rcases h2 : lookupKey (r.pendingFor c) (ρ.lastProcessedMessageNumber + 1)
        with _ | msg
      · rw [show processPendingMessages (fuel + 1) r c = r by
          simp only [processPendingMessages, h1, h2]]
        exact hmem
      · by_cases h3 : ρ.exploded = true ∧ msg.GetMessageType ≠ MessageTypeRocketLaunched
        · rw [show processPendingMessages (fuel + 1) r c
              = processPendingMessages fuel
                  { r with
                    pendingMessages := setKey r.pendingMessages c
                        (eraseKey (r.pendingFor c) (ρ.lastProcessedMessageNumber + 1)) } c by
            simp only [processPendingMessages, h1, h2, if_pos h3]]
          exact ih _ c hmem
        · rcases h4 : processMessageByType r ρ msg with ⟨ρ', r', ok⟩
          have hpm : r'.processedMessages = r.processedMessages := by
            have h5 := processMessageByType_processedMessages r ρ msg
            rw [h4] at h5
            exact h5
          have hmem' : k ∈ r'.processedFor c := by
            rw [processedFor_congr r r' c hpm]
            exact hmem
          cases ok
          · rw [show processPendingMessages (fuel + 1) r c
                = { r' with
                    pendingMessages := setKey r'.pendingMessages c
                        (eraseKey (r'.pendingFor c) (ρ.lastProcessedMessageNumber + 1)) } by
              simp only [processPendingMessages, h1, h2, if_neg h3, h4]]
            exact hmem'
          · rw [show processPendingMessages (fuel + 1) r c
                = processPendingMessages fuel
                    { recordApplied r' c (ρ.lastProcessedMessageNumber + 1) msg ρ' with
                      pendingMessages :=
                        setKey (recordApplied r' c (ρ.lastProcessedMessageNumber + 1) msg ρ').pendingMessages c
                          (eraseKey ((recordApplied r' c (ρ.lastProcessedMessageNumber + 1) msg ρ').pendingFor c)
                            (ρ.lastProcessedMessageNumber + 1)) } c by
              simp only [processPendingMessages, h1, h2, if_neg h3, h4]]
            refine ih _ c ?_
            show k ∈ RocketRepository.processedFor
              (recordApplied r' c (ρ.lastProcessedMessageNumber + 1) msg ρ') c
            unfold RocketRepository.processedFor
            rw [recordApplied_processedMessages, lookupKey_setKey_self]
            exact mem_insertNum _ _ _ hmem'

theorem setKey_setKey {κ α : Type} [DecidableEq κ] (l : List (κ × α)) (k : κ)
    (v w : α) : setKey (setKey l k v) k w = setKey l k w := by
  induction l with
  | nil => simp [setKey]
  | cons p rest ih =>
    by_cases hp : p.1 = k
    · simp [setKey, hp]
    · simp [setKey, hp, ih]

theorem initMaps_eq_self (r : RocketRepository) (c : String) (h : KeysAt c r) :
    initMaps r c = r := by
  unfold initMaps
  rcases ha : lookupKey r.processedMessages c with _ | l1
  · exact absurd ha h.1
  · rcases hb : lookupKey r.pendingMessages c with _ | l2
    · exact absurd hb h.2
    · simp only [ha, hb]

theorem processInOrder_KeysAt (c' : String) (X : RocketRepository) (c : String)
    (n : Int) (m : RocketMessage) (ρ : RocketState) (h : KeysAt c' X) :
    KeysAt c' (processInOrder X c n m ρ).1 := by
  rcases lt_trichotomy n (ρ.lastProcessedMessageNumber + 1) with hc | hc | hc
  · rw [processInOrder_stale _ _ _ _ _ hc]
    exact h
  · rcases h4 : processMessageByType X ρ m with ⟨ρ', r', ok⟩
    have hk' : KeysAt c' r' := by
      have h5 := KeysAt_pMBT c' X ρ m h
      rw [h4] at h5
      exact h5
    cases ok
    · rw [processInOrder_apply_fail _ _ _ _ _ _ _ hc h4]
      exact hk'
    · rw [processInOrder_apply_ok _ _ _ _ _ _ _ hc h4]
      exact drain_KeysAt c' _ _ c (KeysAt_recordApplied _ _ _ _ _ _ hk')
  · rw [processInOrder_buffer _ _ _ _ _ hc]
    exact KeysAt_setPending _ _ _ _ h

theorem ProcessMessage_KeysAt (r : RocketRepository) (m : RocketMessage) :
    KeysAt m.GetChannel (ProcessMessage r m).1 := by
  have hkI : KeysAt m.GetChannel (initMaps r m.GetChannel) := KeysAt_initMaps r _
  by_cases hproc : m.GetMessageNumber ∈ r.processedFor m.GetChannel
  · rw [ProcessMessage_dedup r m hproc]
    exact hkI
  · rcases hrock : GetRocket r m.GetChannel with _ | ρ
    · by_cases hty : m.GetMessageType = MessageTypeRocketLaunched
      · rw [ProcessMessage_noRocket_launch r m hproc hrock hty]
        exact processInOrder_KeysAt _ _ _ _ _ _ hkI
      · rw [ProcessMessage_noRocket_nonLaunch r m hproc hrock hty]
        exact KeysAt_setPending _ _ _ _ hkI
    · rw [ProcessMessage_withRocket r m ρ hproc hrock]
      exact processInOrder_KeysAt _ _ _ _ _ _ hkI

theorem processInOrder_buffer' (r : RocketRepository) (c : String) (n : Int)
    (m : RocketMessage) (ρ : RocketState)
    (hlt : ρ.lastProcessedMessageNumber + 1 < n) :
    processInOrder r c n m ρ = (bufferInto r c n m, true) :=
  processInOrder_buffer r c n m ρ hlt

theorem ProcessMessage_noRocket_nonLaunch' (r : RocketRepository) (m : RocketMessage)
    (hproc : m.GetMessageNumber ∉ r.processedFor m.GetChannel)
    (hrock : GetRocket r m.GetChannel = none)
    (hty : m.GetMessageType ≠ MessageTypeRocketLaunched) :
    ProcessMessage r m
      = (bufferInto (initMaps r m.GetChannel) m.GetChannel m.GetMessageNumber m,
         true) :=
  ProcessMessage_noRocket_nonLaunch r m hproc hrock hty

theorem bufferInto_idem (Y : RocketRepository) (c : String) (n : Int)
    (m : RocketMessage) :
    bufferInto (bufferInto Y c n m) c n m = bufferInto Y c n m := by
  unfold bufferInto
  rw [pendingFor_setPending, setKey_setKey, setKey_setKey]

theorem KeysAt_bufferInto (c' : String) (X : RocketRepository) (c : String)
    (n : Int) (m : RocketMessage) (h : KeysAt c' X) :
    KeysAt c' (bufferInto X c n m) :=
  KeysAt_setPending c' c X _ h

theorem processedFor_bufferInto (X : RocketRepository) (c q : String) (n : Int)
    (m : RocketMessage) :
    (bufferInto X c n m).processedFor q = X.processedFor q := rfl

theorem GetRocket_bufferInto (X : RocketRepository) (c q : String) (n : Int)
    (m : RocketMessage) :
    GetRocket (bufferInto X c n m) q = GetRocket X q := rfl

/-- `ProcessMessage` on a repository that already has its per-channel maps:
the duplicate path. -/
theorem ProcessMessage_dedup' (X : RocketRepository) (m : RocketMessage)
    (hk : KeysAt m.GetChannel X)
    (hproc : m.GetMessageNumber ∈ X.processedFor m.GetChannel) :
    ProcessMessage X m = (X, true) := by
  rw [ProcessMessage_dedup X m hproc, initMaps_eq_self _ _ hk]

/-- `ProcessMessage` on a repository that already has its per-channel maps:
the existing-rocket path. -/
theorem ProcessMessage_withRocket' (X : RocketRepository) (m : RocketMessage)
    (ρ : RocketState) (hk : KeysAt m.GetChannel X)
    (hproc : m.GetMessageNumber ∉ X.processedFor m.GetChannel)
    (hrock : GetRocket X m.GetChannel = some ρ) :
    ProcessMessage X m = processInOrder X m.GetChannel m.GetMessageNumber m ρ := by
  rw [ProcessMessage_withRocket X m ρ hproc hrock, initMaps_eq_self _ _ hk]

theorem ProcessMessage_noRocket_nonLaunch2 (X : RocketRepository) (m : RocketMessage)
    (hk : KeysAt m.GetChannel X)
    (hproc : m.GetMessageNumber ∉ X.processedFor m.GetChannel)
    (hrock : GetRocket X m.GetChannel = none)
    (hty : m.GetMessageType ≠ MessageTypeRocketLaunched) :
    ProcessMessage X m
      = (bufferInto X m.GetChannel m.GetMessageNumber m, true) := by
  rw [ProcessMessage_noRocket_nonLaunch' X m hproc hrock hty,
    initMaps_eq_self _ _ hk]

/-- C4 counterexample: a first `Launched` with an empty mission is rejected,
so "both calls return `ok = true`" is false — both ingests of this duplicate
return `ok = false`. -/
theorem c4_duplicate_not_always_ok :
    (ProcessMessage NewRocketRepository msgBadL1R).2 = false ∧
    (ProcessMessage (ProcessMessage NewRocketRepository msgBadL1R).1 msgBadL1R).2
      = false := by
  decide

/-- C4 (amended): ingesting the same envelope twice in succession, from any
repository state, leaves exactly the state of ingesting it once, and the two
calls return the same `ok` value (both `true` unless the envelope is
rejected). -/
theorem c4_duplicate_ingest_idempotent (r : RocketRepository) (m : RocketMessage) :
    (ProcessMessage (ProcessMessage r m).1 m).1 = (ProcessMessage r m).1 ∧
    (ProcessMessage (ProcessMessage r m).1 m).2 = (ProcessMessage r m).2 := by
  by_cases hproc : m.GetMessageNumber ∈ r.processedFor m.GetChannel
  · rw [ProcessMessage_dedup r m hproc]
    rw [ProcessMessage_dedup' _ m (KeysAt_initMaps r m.GetChannel)
      (by rw [initMaps_processedFor]; exact hproc)]
    exact ⟨rfl, rfl⟩
  · rcases hrock : GetRocket r m.GetChannel with _ | ρ
    · by_cases hty : m.GetMessageType = MessageTypeRocketLaunched
      · -- launch on a fresh channel: the ghost record is created first
        rw [ProcessMessage_noRocket_launch r m hproc hrock hty]
        set Y : RocketRepository :=
          { initMaps r m.GetChannel with
            rockets := setKey (initMaps r m.GetChannel).rockets m.GetChannel
              (emptyRocketState m.GetChannel) } with hY
        have hkY : KeysAt m.GetChannel Y := KeysAt_initMaps r m.GetChannel
        have hprocY : m.GetMessageNumber ∉ Y.processedFor m.GetChannel := by
          show m.GetMessageNumber ∉ (initMaps r m.GetChannel).processedFor m.GetChannel
          rw [initMaps_processedFor]
          exact hproc
        have hrockY : GetRocket Y m.GetChannel = some (emptyRocketState m.GetChannel) := by
          show lookupKey (setKey (initMaps r m.GetChannel).rockets m.GetChannel
            (emptyRocketState m.GetChannel)) m.GetChannel = _
          exact lookupKey_setKey_self _ _ _
        rcases lt_trichotomy m.GetMessageNumber
          ((emptyRocketState m.GetChannel).lastProcessedMessageNumber + 1)
          with hc | hc | hc
        · rw [processInOrder_stale _ _ _ _ _ hc,
            ProcessMessage_withRocket' Y m _ hkY hprocY hrockY,
            processInOrder_stale _ _ _ _ _ hc]
          exact ⟨rfl, rfl⟩
        · rcases h4 : processMessageByType Y (emptyRocketState m.GetChannel) m
            with ⟨ρ', r', ok⟩
          cases ok
          · obtain ⟨hρ', hr'⟩ := processMessageByType_false_components _ _ _ _ _ h4
            subst hρ'
            subst hr'
            rw [processInOrder_apply_fail _ _ _ _ _ _ _ hc h4,
              ProcessMessage_withRocket' Y m _ hkY hprocY hrockY,
              processInOrder_apply_fail _ _ _ _ _ _ _ hc h4]
            exact ⟨rfl, rfl⟩
          · rw [processInOrder_apply_ok _ _ _ _ _ _ _ hc h4]
            set X := processPendingMessages
              ((recordApplied r' m.GetChannel m.GetMessageNumber m ρ').pendingFor
                m.GetChannel).length
              (recordApplied r' m.GetChannel m.GetMessageNumber m ρ')
              m.GetChannel with hX
            have hkX : KeysAt m.GetChannel X := by
              refine drain_KeysAt _ _ _ _ (KeysAt_recordApplied _ _ _ _ _ _ ?_)
              have h5 := KeysAt_pMBT m.GetChannel Y (emptyRocketState m.GetChannel) m hkY
              rw [h4] at h5
              exact h5
            have hmemX : m.GetMessageNumber ∈ X.processedFor m.GetChannel := by
              refine drain_processed_mem _ _ _ _ ?_
              show m.GetMessageNumber ∈ RocketRepository.processedFor
                (recordApplied r' m.GetChannel m.GetMessageNumber m ρ') m.GetChannel
              unfold RocketRepository.processedFor
              rw [recordApplied_processedMessages, lookupKey_setKey_self]
              exact mem_insertNum_self _ _
            rw [ProcessMessage_dedup' X m hkX hmemX]
            exact ⟨rfl, rfl⟩
        · rw [processInOrder_buffer' _ _ _ _ _ hc]
          have hkX : KeysAt m.GetChannel
              (bufferInto Y m.GetChannel m.GetMessageNumber m) :=
            KeysAt_bufferInto _ _ _ _ _ hkY
          have hprocX : m.GetMessageNumber ∉
              (bufferInto Y m.GetChannel m.GetMessageNumber m).processedFor
                m.GetChannel := by
            rw [processedFor_bufferInto]
            exact hprocY
          have hrockX : GetRocket (bufferInto Y m.GetChannel m.GetMessageNumber m)
              m.GetChannel = some (emptyRocketState m.GetChannel) := by
            rw [GetRocket_bufferInto]
            exact hrockY
          rw [ProcessMessage_withRocket' _ m _ hkX hprocX hrockX,
            processInOrder_buffer' _ _ _ _ _ hc, bufferInto_idem]
          exact ⟨rfl, rfl⟩
      · -- bootstrap buffering of a non-launch envelope
        rw [ProcessMessage_noRocket_nonLaunch' r m hproc hrock hty]
        set I := initMaps r m.GetChannel with hI
        have hkX : KeysAt m.GetChannel
            (bufferInto I m.GetChannel m.GetMessageNumber m) :=
          KeysAt_bufferInto _ _ _ _ _ (KeysAt_initMaps r m.GetChannel)
        have hprocX : m.GetMessageNumber ∉
            (bufferInto I m.GetChannel m.GetMessageNumber m).processedFor
              m.GetChannel := by
          rw [processedFor_bufferInto]
          show m.GetMessageNumber ∉ I.processedFor m.GetChannel
          rw [hI, initMaps_processedFor]
          exact hproc
        have hrockX : GetRocket (bufferInto I m.GetChannel m.GetMessageNumber m)
            m.GetChannel = none := by
          rw [GetRocket_bufferInto]
          show GetRocket I m.GetChannel = none
          rw [hI, GetRocket_initMaps]
          exact hrock
        rw [ProcessMessage_noRocket_nonLaunch2 _ m hkX hprocX hrockX hty,
          bufferInto_idem]
        exact ⟨rfl, rfl⟩
    · -- the channel already has a rocket
      rw [ProcessMessage_withRocket r m ρ hproc hrock]
      set I := initMaps r m.GetChannel with hI
      have hkI : KeysAt m.GetChannel I := KeysAt_initMaps r m.GetChannel
      have hprocI : m.GetMessageNumber ∉ I.processedFor m.GetChannel := by
        rw [hI, initMaps_processedFor]
        exact hproc
      have hrockI : GetRocket I m.GetChannel = some ρ := by
        rw [hI, GetRocket_initMaps]
        exact hrock
      rcases lt_trichotomy m.GetMessageNumber (ρ.lastProcessedMessageNumber + 1)
        with hc | hc | hc
      · rw [processInOrder_stale _ _ _ _ _ hc,
          ProcessMessage_withRocket' I m ρ hkI hprocI hrockI,
          processInOrder_stale _ _ _ _ _ hc]
        exact ⟨rfl, rfl⟩
      · rcases h4 : processMessageByType I ρ m with ⟨ρ', r', ok⟩
        cases ok
        · obtain ⟨hρ', hr'⟩ := processMessageByType_false_components _ _ _ _ _ h4
          subst hρ'
          subst hr'
          rw [processInOrder_apply_fail _ _ _ _ _ _ _ hc h4,
            ProcessMessage_withRocket' I m _ hkI hprocI hrockI,
            processInOrder_apply_fail _ _ _ _ _ _ _ hc h4]
          exact ⟨rfl, rfl⟩
        · rw [processInOrder_apply_ok _ _ _ _ _ _ _ hc h4]
          set X := processPendingMessages
            ((recordApplied r' m.GetChannel m.GetMessageNumber m ρ').pendingFor
              m.GetChannel).length
            (recordApplied r' m.GetChannel m.GetMessageNumber m ρ')
            m.GetChannel with hX
          have hkX : KeysAt m.GetChannel X := by
            refine drain_KeysAt _ _ _ _ (KeysAt_recordApplied _ _ _ _ _ _ ?_)
            have h5 := KeysAt_pMBT m.GetChannel I ρ m hkI
            rw [h4] at h5
            exact h5
          have hmemX : m.GetMessageNumber ∈ X.processedFor m.GetChannel := by
            refine drain_processed_mem _ _ _ _ ?_
            show m.GetMessageNumber ∈ RocketRepository.processedFor
              (recordApplied r' m.GetChannel m.GetMessageNumber m ρ') m.GetChannel
            unfold RocketRepository.processedFor
            rw [recordApplied_processedMessages, lookupKey_setKey_self]
            exact mem_insertNum_self _ _
          rw [ProcessMessage_dedup' X m hkX hmemX]
          exact ⟨rfl, rfl⟩
      · rw [processInOrder_buffer' _ _ _ _ _ hc]
        have hkX : KeysAt m.GetChannel
            (bufferInto I m.GetChannel m.GetMessageNumber m) :=
          KeysAt_bufferInto _ _ _ _ _ hkI
        have hprocX : m.GetMessageNumber ∉
            (bufferInto I m.GetChannel m.GetMessageNumber m).processedFor
              m.GetChannel := by
          rw [processedFor_bufferInto]
          exact hprocI
        have hrockX : GetRocket (bufferInto I m.GetChannel m.GetMessageNumber m)
            m.GetChannel = some ρ := by
          rw [GetRocket_bufferInto]
          exact hrockI
        rw [ProcessMessage_withRocket' _ m ρ hkX hprocX hrockX,
          processInOrder_buffer' _ _ _ _ _ hc, bufferInto_idem]
        exact ⟨rfl, rfl⟩

/-! ### C5 — permutation equivalence -/

theorem filter_gt_mono (ns : List Int) (j : Int) :
    (ns.filter fun x => decide (j + 1 < x)).length
      ≤ (ns.filter fun x => decide (j < x)).length := by
  induction ns with
  | nil => simp
  | cons x rest ih =>
    by_cases h1 : j + 1 < x <;> by_cases h2 : j < x <;>
      simp [List.filter_cons, h1, h2] <;> omega

theorem filter_gt_strict (ns : List Int) (j : Int) (h : (j + 1) ∈ ns) :
    (ns.filter fun x => decide (j + 1 < x)).length
      < (ns.filter fun x => decide (j < x)).length := by
  induction ns with
  | nil => simp at h
  | cons x rest ih =>
    rcases List.mem_cons.mp h with hx | hx
    · subst hx
      have h1 : ¬ (j + 1 < j + 1) := by omega
      have h2 : j < j + 1 := by omega
      simp only [List.filter_cons, decide_eq_true_eq, if_neg h1, if_pos h2,
        List.length_cons]
      exact Nat.lt_succ_of_le (filter_gt_mono rest j)
    · by_cases h1 : j + 1 < x <;> by_cases h2 : j < x <;>
        simp only [List.filter_cons, decide_eq_true_eq, if_pos, if_neg, h1, h2,
          List.length_cons] <;>
        first
          | exact Nat.succ_lt_succ (ih hx)
          | exact Nat.lt_succ_of_lt (ih hx)
          | exact ih hx
          | omega

theorem chainE_spec : ∀ (f : Nat) (ns : List Int) (j : Int),
    (ns.filter fun x => decide (j < x)).length ≤ f →
    IsChain ns j (chainE f ns j) := by
  intro f
  induction f with
  | zero =>
    intro ns j hf
    have hz : chainE 0 ns j = j := rfl
    rw [hz]
    refine ⟨le_refl _, fun i h1 h2 => by omega, ?_⟩
    intro hmem
    have : (j + 1) ∈ ns.filter fun x => decide (j < x) :=
      List.mem_filter.mpr ⟨hmem, by simp⟩
    rw [List.length_eq_zero.mp (Nat.le_zero.mp hf)] at this
    simp at this
  | succ f ih =>
    intro ns j hf
    by_cases hmem : (j + 1) ∈ ns
    · rw [show chainE (f + 1) ns j = chainE f ns (j + 1) by
        simp only [chainE, if_pos hmem]]
      have hf' : (ns.filter fun x => decide (j + 1 < x)).length ≤ f := by
        have := filter_gt_strict ns j hmem
        omega
      obtain ⟨ha, hb, hc⟩ := ih ns (j + 1) hf'
      exact ⟨by omega, fun i h1 h2 => by
        rcases eq_or_lt_of_le (show j + 1 ≤ i by omega) with he | hl
        · exact he ▸ hmem
        · exact hb i hl h2, hc⟩
    · rw [show chainE (f + 1) ns j = j by simp only [chainE, if_neg hmem]]
      exact ⟨le_refl _, fun i h1 h2 => absurd h2 (by omega), hmem⟩

theorem chainFrom_spec (ns : List Int) (j : Int) : IsChain ns j (chainFrom ns j) :=
  chainE_spec ns.length ns j (List.length_filter_le _ _)

theorem chain_unique (ns : List Int) (j k1 k2 : Int)
    (h1 : IsChain ns j k1) (h2 : IsChain ns j k2) : k1 = k2 := by
  obtain ⟨ha1, hb1, hc1⟩ := h1
  obtain ⟨ha2, hb2, hc2⟩ := h2
  by_contra hne
  rcases lt_or_gt_of_ne hne with hlt | hlt
  · exact hc1 (hb2 (k1 + 1) (by omega) (by omega))
  · exact hc2 (hb1 (k2 + 1) (by omega) (by omega))

theorem chain_nonneg (ns : List Int) (j k : Int) (hj : 0 ≤ j)
    (h : IsChain ns j k) : 0 ≤ k := le_trans hj h.1

theorem chain_le_of_bound (ns : List Int) (j k N : Int)
    (h : IsChain ns j k) (hb : ∀ x ∈ ns, x ≤ N) (hj : j ≤ N) : k ≤ N := by
  rcases eq_or_lt_of_le h.1 with he | hl
  · omega
  · exact hb k (h.2.1 k hl (le_refl _))



theorem lookupKey_singleton {κ α : Type} [DecidableEq κ] (k : κ) (v : α) :
    lookupKey [(k, v)] k = some v := by
  simp [lookupKey]

theorem setKey_singleton {κ α : Type} [DecidableEq κ] (k : κ) (v w : α) :
    setKey [(k, v)] k w = [(k, w)] := by
  simp [setKey]

theorem mem_ascInts (x : Int) (k : Nat) : x ∈ ascInts k ↔ 1 ≤ x ∧ x ≤ (k : Int) := by
  simp only [ascInts, List.mem_map, List.mem_range]
  constructor
  · rintro ⟨i, hi, rfl⟩
    constructor <;> omega
  · rintro ⟨h1, h2⟩
    refine ⟨x.toNat - 1, by omega, by omega⟩

theorem ascInts_succ (k : Nat) : ascInts (k + 1) = ascInts k ++ [(k : Int) + 1] := by
  simp [ascInts, List.range_succ]

theorem ascInts_nodup (k : Nat) : (ascInts k).Nodup := by
  refine (List.nodup_range k).map ?_
  intro a b hab
  simp only at hab
  omega

theorem insertNum_ascInts (j : Nat) :
    insertNum (ascInts j) ((j : Int) + 1) = ascInts (j + 1) := by
  unfold insertNum
  rw [if_neg (by rw [mem_ascInts]; omega), ascInts_succ]

theorem setKey_append_of_not_mem {κ α : Type} [DecidableEq κ]
    (l : List (κ × α)) (k : κ) (v : α) (h : k ∉ l.map Prod.fst) :
    setKey l k v = l ++ [(k, v)] := by
  induction l with
  | nil => rfl
  | cons p rest ih =>
    simp only [List.map_cons, List.mem_cons] at h
    push_neg at h
    have hp : ¬ p.1 = k := fun he => h.1 he.symm
    simp [setKey, hp, ih h.2]

theorem pendingOf_append (P Q : List RocketMessage) (k : Int) :
    pendingOf (P ++ Q) k = pendingOf P k ++ pendingOf Q k := by
  simp [pendingOf]

theorem keys_pendingOf (P : List RocketMessage) (k : Int) :
    (pendingOf P k).map Prod.fst
      = (numbersOf P).filter fun x => decide (k < x) := by
  induction P with
  | nil => rfl
  | cons m rest ih =>
    by_cases h : k < m.GetMessageNumber <;>
      simp [pendingOf, numbersOf, List.filterMap_cons, List.filter_cons, h] <;>
      simpa [pendingOf, numbersOf] using ih

theorem mem_pendingOf (P : List RocketMessage) (k : Int)
    (p : Int × RocketMessage) :
    p ∈ pendingOf P k ↔ p.2 ∈ P ∧ p.1 = p.2.GetMessageNumber ∧ k < p.1 := by
  simp only [pendingOf, List.mem_filterMap]
  constructor
  · rintro ⟨m, hm, hf⟩
    by_cases h : k < m.GetMessageNumber
    · rw [if_pos h] at hf
      cases hf
      exact ⟨hm, rfl, h⟩
    · rw [if_neg h] at hf
      cases hf
  · rintro ⟨hm, h1, h2⟩
    refine ⟨p.2, hm, ?_⟩
    rw [← h1, if_pos h2]

theorem pendingOf_filter (P : List RocketMessage) (a b : Int) (hab : a ≤ b) :
    ((pendingOf P a).filter fun p => decide (b < p.1)) = pendingOf P b := by
  induction P with
  | nil => rfl
  | cons m rest ih =>
    by_cases h1 : a < m.GetMessageNumber
    · by_cases h2 : b < m.GetMessageNumber
      · simp [pendingOf, List.filterMap_cons, h1, h2, List.filter_cons] at ih ⊢
        simpa [pendingOf] using ih
      · simp [pendingOf, List.filterMap_cons, h1, h2, List.filter_cons] at ih ⊢
        simpa [pendingOf] using ih
    · have h2 : ¬ b < m.GetMessageNumber := by omega
      simp [pendingOf, List.filterMap_cons, h1, h2] at ih ⊢
      simpa [pendingOf] using ih

theorem eraseKey_filter_gt (pl : List (Int × RocketMessage)) (x k : Int)
    (hx : x ≤ k) :
    ((eraseKey pl x).filter fun p => decide (k < p.1))
      = pl.filter fun p => decide (k < p.1) := by
  induction pl with
  | nil => rfl
  | cons p rest ih =>
    by_cases h1 : p.1 = x
    · have h2 : ¬ k < x := by omega
      simp [eraseKey, h1, List.filter_cons, h2, ih]
    · simp [eraseKey, h1, List.filter_cons, ih]

theorem numbers_get (S : List RocketMessage) (hn : numbersOf S = ascInts S.length)
    (i : Nat) (h : i < S.length) :
    (S.get ⟨i, h⟩).GetMessageNumber = (i : Int) + 1 := by
  have hl : i < (numbersOf S).length := by
    simp only [numbersOf, List.length_map]
    exact h
  have h1 := List.get_of_eq hn ⟨i, hl⟩
  simpa [numbersOf, ascInts] using h1

theorem numbers_mem_bounds (S : List RocketMessage)
    (hn : numbersOf S = ascInts S.length) (m : RocketMessage) (hm : m ∈ S) :
    1 ≤ m.GetMessageNumber ∧ m.GetMessageNumber ≤ (S.length : Int) := by
  have : m.GetMessageNumber ∈ numbersOf S := by
    simp only [numbersOf, List.mem_map]
    exact ⟨m, hm, rfl⟩
  rw [hn, mem_ascInts] at this
  exact this

theorem numbers_uniq (S : List RocketMessage)
    (hn : numbersOf S = ascInts S.length) (m : RocketMessage) (hm : m ∈ S)
    (i : Nat) (h : i < S.length) (hnum : m.GetMessageNumber = (i : Int) + 1) :
    m = S.get ⟨i, h⟩ := by
  obtain ⟨⟨j, hj⟩, hget⟩ := List.mem_iff_get.mp hm
  have hjn := numbers_get S hn j hj
  rw [hget] at hjn
  have : j = i := by omega
  subst this
  exact hget.symm

theorem numbersOf_nodup (S : List RocketMessage)
    (hn : numbersOf S = ascInts S.length) : (numbersOf S).Nodup := by
  rw [hn]
  exact ascInts_nodup _



/-- The rocket value returned by the transition function does not depend on
the repository argument. -/
theorem processMessageByType_rocket_indep (r r2 : RocketRepository)
    (ρ : RocketState) (m : RocketMessage) :
    (processMessageByType r ρ m).1 = (processMessageByType r2 ρ m).1 := by
  unfold processMessageByType
  dsimp only
  repeat' split
  all_goals rfl

/-- On a non-exploded rocket, a content-valid envelope is always accepted,
and the repository is returned untouched (no valid kind is `Exploded`, the
only mutating kind). -/
theorem processMessageByType_valid_snd (r : RocketRepository) (ρ : RocketState)
    (m : RocketMessage) (hv : contentValid m) (hexp : ρ.exploded = false) :
    (processMessageByType r ρ m).2 = (r, true) := by
  unfold processMessageByType
  rw [if_neg (by rw [hexp]; simp)]
  rcases hv with ⟨hty, h1, h2⟩ | ⟨hty, h1⟩ | ⟨hty, h1⟩ | ⟨hty, h1⟩
  · rw [if_pos hty, if_neg (not_or_intro h1 h2)]
  · rw [if_neg (by rw [hty]; decide), if_pos hty, if_neg (by omega)]
  · rw [if_neg (by rw [hty]; decide), if_neg (by rw [hty]; decide), if_pos hty,
      if_neg (by omega)]
  · rw [if_neg (by rw [hty]; decide), if_neg (by rw [hty]; decide),
      if_neg (by rw [hty]; decide), if_neg (by rw [hty]; decide), if_pos hty,
      if_neg h1]

theorem processMessageByType_valid (r : RocketRepository) (ρ : RocketState)
    (m : RocketMessage) (hv : contentValid m) (hexp : ρ.exploded = false) :
    processMessageByType r ρ m
      = ((processMessageByType NewRocketRepository ρ m).1, r, true) := by
  have h2 := processMessageByType_valid_snd r ρ m hv hexp
  calc processMessageByType r ρ m
      = ((processMessageByType r ρ m).1, (processMessageByType r ρ m).2) := rfl
    _ = ((processMessageByType NewRocketRepository ρ m).1, r, true) := by
        rw [h2, processMessageByType_rocket_indep r NewRocketRepository ρ m]

theorem applyStep_exploded (ρ : RocketState) (m : RocketMessage)
    (hv : contentValid m) (hexp : ρ.exploded = false) :
    (applyStep ρ m).exploded = false := by
  unfold applyStep processMessageByType
  rw [if_neg (by rw [hexp]; simp)]
  rcases hv with ⟨hty, h1, h2⟩ | ⟨hty, h1⟩ | ⟨hty, h1⟩ | ⟨hty, h1⟩
  · rw [if_pos hty, if_neg (not_or_intro h1 h2)]
    dsimp only
    split <;> rfl
  · rw [if_neg (by rw [hty]; decide), if_pos hty, if_neg (by omega)]
    exact hexp
  · rw [if_neg (by rw [hty]; decide), if_neg (by rw [hty]; decide), if_pos hty,
      if_neg (by omega)]
    exact hexp
  · rw [if_neg (by rw [hty]; decide), if_neg (by rw [hty]; decide),
      if_neg (by rw [hty]; decide), if_neg (by rw [hty]; decide), if_pos hty,
      if_neg h1]
    exact hexp

theorem applyStep_id (ρ : RocketState) (m : RocketMessage) :
    (applyStep ρ m).id = ρ.id := by
  have h := processMessageByType_id NewRocketRepository ρ m
  unfold applyStep
  exact h

theorem foldl_applyStep_exploded : ∀ (l : List RocketMessage) (ρ : RocketState),
    (∀ m ∈ l, contentValid m) → ρ.exploded = false →
    (l.foldl applyStep ρ).exploded = false := by
  intro l
  induction l with
  | nil => intro ρ _ h; exact h
  | cons m rest ih =>
    intro ρ hv h
    simp only [List.foldl_cons]
    exact ih _ (fun x hx => hv x (List.mem_cons_of_mem m hx))
      (applyStep_exploded ρ m (hv m (List.mem_cons_self m rest)) h)

theorem rocketAfter_exploded (c : String) (S : List RocketMessage)
    (hv : ∀ m ∈ S, contentValid m) (j : Nat) :
    (rocketAfter c S j).exploded = false :=
  foldl_applyStep_exploded (S.take j) (emptyRocketState c)
    (fun m hm => hv m (List.take_subset j S hm)) rfl

theorem rocketAfter_succ (c : String) (S : List RocketMessage) (j : Nat)
    (h : j < S.length) :
    rocketAfter c S (j + 1) = applyStep (rocketAfter c S j) (S.get ⟨j, h⟩) := by
  unfold rocketAfter
  rw [List.take_succ, List.foldl_append]
  simp [List.getElem?_eq_getElem h]

theorem rocketAfter_last (c : String) (S : List RocketMessage)
    (hn : numbersOf S = ascInts S.length) :
    ∀ (j : Nat), j ≤ S.length →
    (rocketAfter c S j).lastProcessedMessageNumber = (j : Int) := by
  intro j
  induction j with
  | zero => intro _; rfl
  | succ j ih =>
    intro hle
    have hj : j < S.length := by omega
    rw [rocketAfter_succ c S j hj]
    show (S.get ⟨j, hj⟩).GetMessageNumber = ((j + 1 : Nat) : Int)
    rw [numbers_get S hn j hj]
    push_cast
    ring



theorem canonState_processedFor (c : String) (S : List RocketMessage) (j : Nat)
    (pl : List (Int × RocketMessage)) :
    (canonState c S j pl).processedFor c = ascInts j := by
  unfold canonState RocketRepository.processedFor
  simp [lookupKey_singleton]

theorem canonState_pendingFor (c : String) (S : List RocketMessage) (j : Nat)
    (pl : List (Int × RocketMessage)) :
    (canonState c S j pl).pendingFor c = pl := by
  unfold canonState RocketRepository.pendingFor
  simp [lookupKey_singleton]

theorem eraseKey_ne {κ α : Type} [DecidableEq κ] (l : List (κ × α)) (k : κ)
    (p : κ × α) (h : p ∈ eraseKey l k) : p.1 ≠ k := by
  induction l with
  | nil => simp [eraseKey] at h
  | cons q rest ih =>
    by_cases hq : q.1 = k
    · simp only [eraseKey, if_pos hq] at h
      exact ih h
    · simp only [eraseKey, if_neg hq, List.mem_cons] at h
      rcases h with h | h
      · exact h ▸ hq
      · exact ih h

/-- The drain loop on a canonical single-channel state: starting at cursor
`j` with pending buffer `pl` (all entries beyond `j`, numbered by their own
envelope number, drawn from the well-formed stream `S`), the loop applies
exactly the contiguous run `j+1, ..., k` and leaves the entries beyond `k`. -/
theorem drain_canon (c : String) (S : List RocketMessage) (hg : GoodStream c S) :
    ∀ (fuel : Nat) (pl : List (Int × RocketMessage)) (j k : Nat),
    pl.length ≤ fuel → j ≤ S.length → k ≤ S.length →
    ((pl.map Prod.fst).Nodup) →
    (∀ p ∈ pl, p.1 = p.2.GetMessageNumber ∧ p.2 ∈ S ∧ (j : Int) < p.1) →
    IsChain (pl.map Prod.fst) (j : Int) (k : Int) →
    processPendingMessages fuel (canonState c S j pl) c
      = canonState c S k (pl.filter fun p => decide ((k : Int) < p.1)) := by
  intro fuel
  induction fuel with
  | zero =>
    intro pl j k hfuel hj hk hnd hent hchain
    have hpl : pl = [] := List.length_eq_zero.mp (Nat.le_zero.mp hfuel)
    subst hpl
    have hjj : IsChain ([] : List Int) (j : Int) (j : Int) :=
      ⟨le_refl _, fun i h1 h2 => (by omega : False).elim, by simp⟩
    have hkj : (j : Int) = (k : Int) := chain_unique _ _ _ _ hjj hchain
    have : j = k := by omega
    subst this
    rfl
  | succ fuel ih =>
    intro pl j k hfuel hj hk hnd hent hchain
    have hrockL : lookupKey (canonState c S j pl).rockets c
        = some (rocketAfter c S j) := lookupKey_singleton c _
    have hpendL : (canonState c S j pl).pendingFor c = pl :=
      canonState_pendingFor c S j pl
    have hlast : (rocketAfter c S j).lastProcessedMessageNumber = (j : Int) :=
      rocketAfter_last c S hg.2.1 j hj
    have hexpR : (rocketAfter c S j).exploded = false :=
      rocketAfter_exploded c S hg.2.2.1 j
    rcases hlook : lookupKey pl ((j : Int) + 1) with _ | msg
    · -- nothing at the cursor: the drain stops, and the chain is trivial
      have hnomem : ((j : Int) + 1) ∉ pl.map Prod.fst := by
        rw [mem_keys_iff_lookup_isSome, hlook]
        simp
      have hjj : IsChain (pl.map Prod.fst) (j : Int) (j : Int) :=
        ⟨le_refl _, fun i h1 h2 => (by omega : False).elim, hnomem⟩
      have hkj : (j : Int) = (k : Int) := chain_unique _ _ _ _ hjj hchain
      have hjk : j = k := by omega
      subst hjk
      have hfilter : (pl.filter fun p => decide ((j : Int) < p.1)) = pl :=
        List.filter_eq_self.mpr fun p hp => by
          simp only [decide_eq_true_eq]
          exact (hent p hp).2.2
      rw [hfilter]
      simp only [processPendingMessages, hrockL, hpendL, hlast, hlook]
    · -- the entry at the cursor exists: one application, then recurse
      have hmemP : ((j : Int) + 1, msg) ∈ pl := lookupKey_mem pl _ msg hlook
      obtain ⟨hnum', hmS, _⟩ := hent _ hmemP
      have hnum : msg.GetMessageNumber = (j : Int) + 1 := hnum'.symm
      have hbounds := numbers_mem_bounds S hg.2.1 msg hmS
      have hjlt : j < S.length := by omega
      have hmsgget : msg = S.get ⟨j, hjlt⟩ :=
        numbers_uniq S hg.2.1 msg hmS j hjlt hnum
      have hv : contentValid msg := hg.2.2.1 msg hmS
      have hvalid := processMessageByType_valid (canonState c S j pl)
        (rocketAfter c S j) msg hv hexpR
      have hrock1 : ({ (processMessageByType NewRocketRepository
            (rocketAfter c S j) msg).1 with
          lastProcessedMessageNumber := (j : Int) + 1
          updatedAt := msg.GetMessageTime } : RocketState)
          = rocketAfter c S (j + 1) := by
        rw [rocketAfter_succ c S j hjlt, ← hmsgget]
        unfold applyStep
        rw [hnum]
      have hkeymem : ((j : Int) + 1) ∈ pl.map Prod.fst := by
        rw [mem_keys_iff_lookup_isSome, hlook]
        rfl
      have hjklt : (j : Int) < (k : Int) := by
        rcases eq_or_lt_of_le hchain.1 with he | hl
        · exact absurd (he ▸ hkeymem) hchain.2.2
        · exact hl
      have hstep : processPendingMessages (fuel + 1) (canonState c S j pl) c
          = processPendingMessages fuel
              (canonState c S (j + 1) (eraseKey pl ((j : Int) + 1))) c := by
        simp only [processPendingMessages, hrockL, hpendL, hlast, hlook,
          if_neg (by rw [hexpR]; simp :
            ¬ ((rocketAfter c S j).exploded = true ∧
               msg.GetMessageType ≠ MessageTypeRocketLaunched)), hvalid]
        congr 1
        unfold recordApplied canonState
        simp only [RocketRepository.processedFor, RocketRepository.pendingFor,
          lookupKey_singleton, Option.getD_some, setKey_singleton,
          insertNum_ascInts, hrock1]
      rw [hstep]
      have hlen : (eraseKey pl ((j : Int) + 1)).length ≤ fuel := by
        have := length_eraseKey_of_lookup pl _ msg hnd hlook
        omega
      have hj1 : j + 1 ≤ S.length := hjlt
      have hnd' := keys_eraseKey_nodup pl ((j : Int) + 1) hnd
      have hent' : ∀ p ∈ eraseKey pl ((j : Int) + 1),
          p.1 = p.2.GetMessageNumber ∧ p.2 ∈ S ∧ ((j + 1 : Nat) : Int) < p.1 := by
        intro p hp
        obtain ⟨h1, h2, h3⟩ := hent p (eraseKey_sub pl _ p hp)
        have h4 := eraseKey_ne pl _ p hp
        refine ⟨h1, h2, ?_⟩
        push_cast
        omega
      have hchain' : IsChain ((eraseKey pl ((j : Int) + 1)).map Prod.fst)
          ((j + 1 : Nat) : Int) (k : Int) := by
        refine ⟨by push_cast; omega, fun i h1 h2 => ?_, fun hm => ?_⟩
        · have hi : i ∈ pl.map Prod.fst := by
            refine hchain.2.1 i (by push_cast at h1 ⊢; omega) h2
          exact (mem_keys_eraseKey pl _ i (by push_cast at h1; omega)).mpr hi
        · exact hchain.2.2
            ((mem_keys_eraseKey pl _ _ (by omega)).mp hm)
      have := ih (eraseKey pl ((j : Int) + 1)) (j + 1) k hlen hj1 hk hnd' hent' hchain'
      rw [this, eraseKey_filter_gt pl _ _ (by omega)]



theorem canonRepo_append (c : String) (S P : List RocketMessage)
    (m : RocketMessage) :
    canonRepo c S (P ++ [m]) = canonBase c S (P ++ [m]) := by
  cases P <;> rfl

theorem canonBase_processedFor (c : String) (S P : List RocketMessage) :
    (canonBase c S P).processedFor c
      = ascInts (chainFrom (numbersOf P) 0).toNat := by
  unfold canonBase RocketRepository.processedFor
  simp [lookupKey_singleton]

theorem canonBase_pendingFor (c : String) (S P : List RocketMessage) :
    (canonBase c S P).pendingFor c = pendingOf P (chainFrom (numbersOf P) 0) := by
  unfold canonBase RocketRepository.pendingFor
  simp [lookupKey_singleton]

theorem GetRocket_canonBase (c : String) (S P : List RocketMessage) :
    GetRocket (canonBase c S P) c
      = if hasLaunched P
        then some (rocketAfter c S (chainFrom (numbersOf P) 0).toNat)
        else none := by
  unfold canonBase GetRocket
  by_cases h : hasLaunched P <;> simp [h, lookupKey_singleton, lookupKey]

theorem KeysAt_canonBase (c : String) (S P : List RocketMessage) :
    KeysAt c (canonBase c S P) := by
  unfold canonBase KeysAt
  simp [lookupKey_singleton]

theorem canonRepo_processedFor (c : String) (S P : List RocketMessage) :
    (canonRepo c S P).processedFor c
      = ascInts (chainFrom (numbersOf P) 0).toNat := by
  cases P with
  | nil => rfl
  | cons a l => exact canonBase_processedFor c S (a :: l)

theorem GetRocket_canonRepo (c : String) (S P : List RocketMessage) :
    GetRocket (canonRepo c S P) c
      = if hasLaunched P
        then some (rocketAfter c S (chainFrom (numbersOf P) 0).toNat)
        else none := by
  cases P with
  | nil => rfl
  | cons a l => exact GetRocket_canonBase c S (a :: l)

theorem initMaps_canonRepo (c : String) (S P : List RocketMessage) :
    initMaps (canonRepo c S P) c = canonBase c S P := by
  cases P with
  | nil => rfl
  | cons a l => exact initMaps_eq_self _ _ (KeysAt_canonBase c S (a :: l))

theorem canonBase_launched (c : String) (S P : List RocketMessage)
    (h : hasLaunched P = true) :
    canonBase c S P
      = canonState c S (chainFrom (numbersOf P) 0).toNat
          (pendingOf P (chainFrom (numbersOf P) 0)) := by
  unfold canonBase canonState
  simp [h]

theorem numbersOf_append (P : List RocketMessage) (m : RocketMessage) :
    numbersOf (P ++ [m]) = numbersOf P ++ [m.GetMessageNumber] := by
  simp [numbersOf]

theorem hasLaunched_append (P : List RocketMessage) (m : RocketMessage) :
    hasLaunched (P ++ [m])
      = (hasLaunched P || (m.GetMessageType == MessageTypeRocketLaunched)) := by
  simp [hasLaunched]

theorem pendingOf_single_pos (m : RocketMessage) (k : Int)
    (h : k < m.GetMessageNumber) :
    pendingOf [m] k = [(m.GetMessageNumber, m)] := by
  simp [pendingOf, h]

theorem pendingOf_single_neg (m : RocketMessage) (k : Int)
    (h : ¬ k < m.GetMessageNumber) :
    pendingOf [m] k = [] := by
  simp [pendingOf, h]

theorem mem_keys_pendingOf (P : List RocketMessage) (a x : Int) :
    x ∈ (pendingOf P a).map Prod.fst ↔ x ∈ numbersOf P ∧ a < x := by
  rw [keys_pendingOf]
  simp

theorem keys_pendingOf_nodup (P : List RocketMessage) (a : Int)
    (h : (numbersOf P).Nodup) : ((pendingOf P a).map Prod.fst).Nodup := by
  rw [keys_pendingOf]
  exact h.filter _

/-- Recording an accepted in-order apply on a canonical state advances the
cursor by one. -/
theorem recordApplied_canonState (c : String) (S : List RocketMessage)
    (j : Nat) (pl : List (Int × RocketMessage)) (msg : RocketMessage)
    (hjlt : j < S.length) (hmsgget : msg = S.get ⟨j, hjlt⟩)
    (hnum : msg.GetMessageNumber = (j : Int) + 1) :
    recordApplied (canonState c S j pl) c ((j : Int) + 1) msg
        (processMessageByType NewRocketRepository (rocketAfter c S j) msg).1
      = canonState c S (j + 1) pl := by
  have hrock1 : ({ (processMessageByType NewRocketRepository
        (rocketAfter c S j) msg).1 with
      lastProcessedMessageNumber := (j : Int) + 1
      updatedAt := msg.GetMessageTime } : RocketState)
      = rocketAfter c S (j + 1) := by
    rw [rocketAfter_succ c S j hjlt, ← hmsgget]
    unfold applyStep
    rw [hnum]
  unfold recordApplied canonState
  simp only [RocketRepository.processedFor, RocketRepository.pendingFor,
    lookupKey_singleton, Option.getD_some, setKey_singleton,
    insertNum_ascInts, hrock1]



theorem chainFrom_zero_nonneg (ns : List Int) : 0 ≤ chainFrom ns 0 :=
  (chainFrom_spec ns 0).1

theorem subperm_map {α β : Type} (f : α → β) {l1 l2 : List α}
    (h : l1.Subperm l2) : (l1.map f).Subperm (l2.map f) := by
  obtain ⟨l, hperm, hsl⟩ := h
  exact ⟨l.map f, hperm.map f, hsl.map f⟩

theorem subperm_nodup {α : Type} {l1 l2 : List α} (h : l1.Subperm l2)
    (hnd : l2.Nodup) : l1.Nodup := by
  obtain ⟨l, hperm, hsl⟩ := h
  exact hperm.nodup (hsl.nodup hnd)

theorem not_in_ascInts_chain (ns : List Int) (x : Int) (hx1 : 1 ≤ x)
    (hxmem : x ∉ ns) : x ∉ ascInts (chainFrom ns 0).toNat := by
  intro hmem
  rw [mem_ascInts] at hmem
  have hspec := chainFrom_spec ns 0
  have hnn : 0 ≤ chainFrom ns 0 := hspec.1
  exact hxmem (hspec.2.1 x (by omega) (by omega))

theorem hasLaunched_of_one_mem (c : String) (S : List RocketMessage)
    (hg : GoodStream c S) (P : List RocketMessage) (hPS : ∀ p ∈ P, p ∈ S)
    (h1 : (1 : Int) ∈ numbersOf P) : hasLaunched P = true := by
  obtain ⟨p, hpP, hp1⟩ := List.mem_map.mp h1
  refine List.any_eq_true.mpr ⟨p, hpP, ?_⟩
  have hL := hg.2.2.2 p (hPS p hpP) hp1
  simp [hL]

theorem ingest_canon_A1 (c : String) (S P : List RocketMessage)
    (m : RocketMessage) (hg : GoodStream c S) (hsub : (P ++ [m]).Subperm S)
    (hA : hasLaunched P = false)
    (hty : m.GetMessageType ≠ MessageTypeRocketLaunched) :
    ProcessMessage (canonRepo c S P) m = (canonRepo c S (P ++ [m]), true) := by
  have hPS : ∀ p ∈ P, p ∈ S := fun p hp => hsub.subset (by simp [hp])
  have hmem : m ∈ S := hsub.subset (by simp)
  have hch : m.GetChannel = c := hg.1 m hmem
  have hndQ : (numbersOf (P ++ [m])).Nodup :=
    subperm_nodup (subperm_map _ hsub) (numbersOf_nodup S hg.2.1)
  have hbm := numbers_mem_bounds S hg.2.1 m hmem
  have hndQ' := hndQ
  rw [numbersOf_append] at hndQ'
  have hsplit := List.nodup_append.mp hndQ'
  have hmP : m.GetMessageNumber ∉ numbersOf P := by
    intro hcon
    exact (hsplit.2.2 hcon) (by simp)
  have h1P : (1 : Int) ∉ numbersOf P := by
    intro hcon
    have h2 := hasLaunched_of_one_mem c S hg P hPS hcon
    rw [hA] at h2
    exact Bool.noConfusion h2
  have hnm1 : m.GetMessageNumber ≠ 1 := by
    intro hcon
    exact hty (hg.2.2.2 m hmem hcon)
  have hkP : chainFrom (numbersOf P) 0 = 0 :=
    chain_unique (numbersOf P) 0 _ 0 (chainFrom_spec _ 0)
      ⟨le_refl _, fun i hi1 hi2 => (by omega : False).elim, by simpa using h1P⟩
  have h1Q : (1 : Int) ∉ numbersOf (P ++ [m]) := by
    rw [numbersOf_append]
    simp only [List.mem_append, List.mem_singleton]
    rintro (h | h)
    · exact h1P h
    · exact hnm1 h.symm
  have hkQ : chainFrom (numbersOf (P ++ [m])) 0 = 0 :=
    chain_unique (numbersOf (P ++ [m])) 0 _ 0 (chainFrom_spec _ 0)
      ⟨le_refl _, fun i hi1 hi2 => (by omega : False).elim, by simpa using h1Q⟩
  have hproc : m.GetMessageNumber ∉ (canonRepo c S P).processedFor m.GetChannel := by
    rw [hch, canonRepo_processedFor]
    exact not_in_ascInts_chain _ _ (by omega) hmP
  have hrock : GetRocket (canonRepo c S P) m.GetChannel = none := by
    rw [hch, GetRocket_canonRepo, hA]
    rfl
  have hAQ : hasLaunched (P ++ [m]) = false := by
    rw [hasLaunched_append, hA]
    simp [hty]
  rw [ProcessMessage_noRocket_nonLaunch' _ m hproc hrock hty, hch,
    initMaps_canonRepo, canonRepo_append]
  congr 1
  unfold bufferInto
  rw [canonBase_pendingFor, hkP]
  have hinner : setKey (pendingOf P 0) m.GetMessageNumber m
      = pendingOf P 0 ++ [(m.GetMessageNumber, m)] :=
    setKey_append_of_not_mem _ _ _ (by
      rw [mem_keys_pendingOf]
      rintro ⟨h, _⟩
      exact hmP h)
  rw [hinner]
  unfold canonBase
  simp only [hkP, hkQ, hA, hAQ, Bool.false_eq_true, if_false, Int.toNat_zero,
    setKey_singleton, pendingOf_append, pendingOf_single_pos m 0 (by omega)]



theorem mem_numbersOf_append_left (P : List RocketMessage) (m : RocketMessage)
    (x : Int) (h : x ∈ numbersOf P) : x ∈ numbersOf (P ++ [m]) := by
  obtain ⟨p, hp, rfl⟩ := List.mem_map.mp h
  exact List.mem_map.mpr ⟨p, List.mem_append_left _ hp, rfl⟩

theorem ingest_canon_A2 (c : String) (S P : List RocketMessage)
    (m : RocketMessage) (hg : GoodStream c S) (hsub : (P ++ [m]).Subperm S)
    (hA : hasLaunched P = false)
    (htyL : m.GetMessageType = MessageTypeRocketLaunched) :
    ProcessMessage (canonRepo c S P) m = (canonRepo c S (P ++ [m]), true) := by
  have hPS : ∀ p ∈ P, p ∈ S := fun p hp => hsub.subset (by simp [hp])
  have hmem : m ∈ S := hsub.subset (by simp)
  have hch : m.GetChannel = c := hg.1 m hmem
  have hndQ : (numbersOf (P ++ [m])).Nodup :=
    subperm_nodup (subperm_map _ hsub) (numbersOf_nodup S hg.2.1)
  have hbm := numbers_mem_bounds S hg.2.1 m hmem
  have hndQ' := hndQ
  rw [numbersOf_append] at hndQ'
  have hsplit := List.nodup_append.mp hndQ'
  have hmP : m.GetMessageNumber ∉ numbersOf P := by
    intro hcon
    exact (hsplit.2.2 hcon) (by simp)
  have h1P : (1 : Int) ∉ numbersOf P := by
    intro hcon
    have h2 := hasLaunched_of_one_mem c S hg P hPS hcon
    rw [hA] at h2
    exact Bool.noConfusion h2
  have hkP : chainFrom (numbersOf P) 0 = 0 :=
    chain_unique (numbersOf P) 0 _ 0 (chainFrom_spec _ 0)
      ⟨le_refl _, fun i hi1 hi2 => (by omega : False).elim, by simpa using h1P⟩
  have hproc : m.GetMessageNumber ∉ (canonRepo c S P).processedFor m.GetChannel := by
    rw [hch, canonRepo_processedFor]
    exact not_in_ascInts_chain _ _ (by omega) hmP
  have hrock : GetRocket (canonRepo c S P) m.GetChannel = none := by
    rw [hch, GetRocket_canonRepo, hA]
    rfl
  have hAQ2 : hasLaunched (P ++ [m]) = true := by
    rw [hasLaunched_append, htyL]
    simp
  have hv : contentValid m := hg.2.2.1 m hmem
  have hbQ : ∀ x ∈ numbersOf (P ++ [m]), x ≤ (S.length : Int) := by
    intro x hx
    obtain ⟨q, hq, rfl⟩ := List.mem_map.mp hx
    exact (numbers_mem_bounds S hg.2.1 q (hsub.subset hq)).2
  have hspecQ := chainFrom_spec (numbersOf (P ++ [m])) 0
  rw [ProcessMessage_noRocket_launch _ m hproc hrock htyL, hch,
    initMaps_canonRepo, canonRepo_append]
  have hY : ({ canonBase c S P with
        rockets := setKey (canonBase c S P).rockets c (emptyRocketState c) })
      = canonState c S 0 (pendingOf P 0) := by
    unfold canonBase canonState
    simp only [hA, Bool.false_eq_true, if_false, hkP, Int.toNat_zero]
    rfl
  rw [hY]
  by_cases hnm : m.GetMessageNumber = 1
  · -- the first launch applies in place, then the drain walks the chain
    have h0n : 0 < S.length := by omega
    have hnum0 : m.GetMessageNumber = ((0 : Nat) : Int) + 1 := by
      rw [hnm]
      norm_num
    have hm0 : m = S.get ⟨0, h0n⟩ := numbers_uniq S hg.2.1 m hmem 0 h0n hnum0
    have heq : m.GetMessageNumber
        = (emptyRocketState c).lastProcessedMessageNumber + 1 := by
      rw [hnm]
      rfl
    have happ := processMessageByType_valid (canonState c S 0 (pendingOf P 0))
      (emptyRocketState c) m hv rfl
    rw [processInOrder_apply_ok _ _ c m.GetMessageNumber m (emptyRocketState c)
      _ heq happ]
    rw [show m.GetMessageNumber = ((0 : Nat) : Int) + 1 from hnum0]
    rw [show (emptyRocketState c) = rocketAfter c S 0 from rfl]
    rw [recordApplied_canonState c S 0 (pendingOf P 0) m h0n hm0 hnum0]
    rw [canonState_pendingFor]
    have h1mem : (1 : Int) ∈ numbersOf (P ++ [m]) :=
      List.mem_map.mpr ⟨m, by simp, hnm⟩
    have hkQ1 : 1 ≤ chainFrom (numbersOf (P ++ [m])) 0 := by
      rcases eq_or_lt_of_le hspecQ.1 with he | hl
      · exact absurd (by rw [← he]; simpa using h1mem) hspecQ.2.2
      · omega
    have hkQle : chainFrom (numbersOf (P ++ [m])) 0 ≤ (S.length : Int) :=
      chain_le_of_bound _ 0 _ _ hspecQ hbQ (by omega)
    have hcast : (((chainFrom (numbersOf (P ++ [m])) 0).toNat : Nat) : Int)
        = chainFrom (numbersOf (P ++ [m])) 0 := Int.toNat_of_nonneg hspecQ.1
    have hdrain := drain_canon c S hg (pendingOf P 0).length (pendingOf P 0) 1
      (chainFrom (numbersOf (P ++ [m])) 0).toNat (le_refl _) h0n (by omega)
      (keys_pendingOf_nodup P 0 hsplit.1)
      (by
        intro p hp
        obtain ⟨hp2, hp1, hp0⟩ := (mem_pendingOf P 0 p).mp hp
        have hNP : p.1 ∈ numbersOf P := List.mem_map.mpr ⟨p.2, hp2, hp1.symm⟩
        have hne1 : p.1 ≠ 1 := fun hq => h1P (hq ▸ hNP)
        exact ⟨hp1, hPS p.2 hp2, by push_cast; omega⟩)
      (by
        refine ⟨by push_cast; omega, fun i hi1 hi2 => ?_, fun hmm => ?_⟩
        · have hiQ : i ∈ numbersOf (P ++ [m]) :=
            hspecQ.2.1 i (by push_cast at hi1; omega) (by omega)
          rw [numbersOf_append, List.mem_append] at hiQ
          rcases hiQ with hiP | hiM
          · exact (mem_keys_pendingOf P 0 i).mpr ⟨hiP, by push_cast at hi1; omega⟩
          · simp only [List.mem_singleton] at hiM
            rw [hiM, hnm] at hi1
            exact (by omega : False).elim
        · obtain ⟨hNP, _⟩ := (mem_keys_pendingOf P 0 _).mp hmm
          rw [hcast] at hNP
          exact hspecQ.2.2 (mem_numbersOf_append_left P m _ hNP))
    rw [hdrain]
    rw [canonBase_launched c S (P ++ [m]) hAQ2]
    congr 1
    rw [show ((((chainFrom (numbersOf (P ++ [m])) 0).toNat : Nat)) : Int)
        = chainFrom (numbersOf (P ++ [m])) 0 from hcast]
    rw [pendingOf_filter P 0 _ hspecQ.1, pendingOf_append,
      pendingOf_single_neg m _ (by omega), List.append_nil]
  · -- a launch beyond the cursor: the ghost record is created and the
    -- envelope is buffered
    have hlt : (emptyRocketState c).lastProcessedMessageNumber + 1
        < m.GetMessageNumber := by
      have : (emptyRocketState c).lastProcessedMessageNumber = 0 := rfl
      omega
    rw [processInOrder_buffer' _ c _ m _ hlt]
    congr 1
    unfold bufferInto
    rw [canonState_pendingFor]
    have hinner : setKey (pendingOf P 0) m.GetMessageNumber m
        = pendingOf P 0 ++ [(m.GetMessageNumber, m)] :=
      setKey_append_of_not_mem _ _ _ (by
        rw [mem_keys_pendingOf]
        rintro ⟨h, _⟩
        exact hmP h)
    rw [hinner]
    have h1Q : (1 : Int) ∉ numbersOf (P ++ [m]) := by
      rw [numbersOf_append]
      simp only [List.mem_append, List.mem_singleton]
      rintro (h | h)
      · exact h1P h
      · exact hnm h.symm
    have hkQ : chainFrom (numbersOf (P ++ [m])) 0 = 0 :=
      chain_unique (numbersOf (P ++ [m])) 0 _ 0 (chainFrom_spec _ 0)
        ⟨le_refl _, fun i hi1 hi2 => (by omega : False).elim, by simpa using h1Q⟩
    rw [canonBase_launched c S (P ++ [m]) hAQ2, hkQ]
    unfold canonState
    simp only [Int.toNat_zero, setKey_singleton, pendingOf_append,
      pendingOf_single_pos m 0 (by omega)]



theorem ingest_canon_B (c : String) (S P : List RocketMessage)
    (m : RocketMessage) (hg : GoodStream c S) (hsub : (P ++ [m]).Subperm S)
    (hB : hasLaunched P = true) :
    ProcessMessage (canonRepo c S P) m = (canonRepo c S (P ++ [m]), true) := by
  have hPS : ∀ p ∈ P, p ∈ S := fun p hp => hsub.subset (by simp [hp])
  have hmem : m ∈ S := hsub.subset (by simp)
  have hch : m.GetChannel = c := hg.1 m hmem
  have hndQ : (numbersOf (P ++ [m])).Nodup :=
    subperm_nodup (subperm_map _ hsub) (numbersOf_nodup S hg.2.1)
  have hbm := numbers_mem_bounds S hg.2.1 m hmem
  have hndQ' := hndQ
  rw [numbersOf_append] at hndQ'
  have hsplit := List.nodup_append.mp hndQ'
  have hmP : m.GetMessageNumber ∉ numbersOf P := by
    intro hcon
    exact (hsplit.2.2 hcon) (by simp)
  have hbQ : ∀ x ∈ numbersOf (P ++ [m]), x ≤ (S.length : Int) := by
    intro x hx
    obtain ⟨q, hq, rfl⟩ := List.mem_map.mp hx
    exact (numbers_mem_bounds S hg.2.1 q (hsub.subset hq)).2
  have hbP : ∀ x ∈ numbersOf P, x ≤ (S.length : Int) := fun x hx =>
    hbQ x (mem_numbersOf_append_left P m x hx)
  have hspecP := chainFrom_spec (numbersOf P) 0
  have hspecQ := chainFrom_spec (numbersOf (P ++ [m])) 0
  have hkPle : chainFrom (numbersOf P) 0 ≤ (S.length : Int) :=
    chain_le_of_bound _ 0 _ _ hspecP hbP (by omega)
  have hkQle : chainFrom (numbersOf (P ++ [m])) 0 ≤ (S.length : Int) :=
    chain_le_of_bound _ 0 _ _ hspecQ hbQ (by omega)
  have hcastP : (((chainFrom (numbersOf P) 0).toNat : Nat) : Int)
      = chainFrom (numbersOf P) 0 := Int.toNat_of_nonneg hspecP.1
  have hcastQ : (((chainFrom (numbersOf (P ++ [m])) 0).toNat : Nat) : Int)
      = chainFrom (numbersOf (P ++ [m])) 0 := Int.toNat_of_nonneg hspecQ.1
  have hproc : m.GetMessageNumber ∉ (canonRepo c S P).processedFor m.GetChannel := by
    rw [hch, canonRepo_processedFor]
    exact not_in_ascInts_chain _ _ (by omega) hmP
  have hrock : GetRocket (canonRepo c S P) m.GetChannel
      = some (rocketAfter c S (chainFrom (numbersOf P) 0).toNat) := by
    rw [hch, GetRocket_canonRepo, hB]
    simp
  have hAQ2 : hasLaunched (P ++ [m]) = true := by
    rw [hasLaunched_append, hB]
    simp
  have hv : contentValid m := hg.2.2.1 m hmem
  have hjPle : (chainFrom (numbersOf P) 0).toNat ≤ S.length := by omega
  have hplast : (rocketAfter c S
        (chainFrom (numbersOf P) 0).toNat).lastProcessedMessageNumber
      = (((chainFrom (numbersOf P) 0).toNat : Nat) : Int) :=
    rocketAfter_last c S hg.2.1 _ hjPle
  have hnmgt : chainFrom (numbersOf P) 0 < m.GetMessageNumber := by
    by_contra hcon
    push_neg at hcon
    exact hmP (hspecP.2.1 m.GetMessageNumber (by omega) hcon)
  have hnmQ : m.GetMessageNumber ∈ numbersOf (P ++ [m]) :=
    List.mem_map.mpr ⟨m, by simp, rfl⟩
  rw [ProcessMessage_withRocket _ m _ hproc hrock, hch, initMaps_canonRepo,
    canonRepo_append, canonBase_launched c S P hB]
  by_cases hnm : m.GetMessageNumber = chainFrom (numbersOf P) 0 + 1
  · -- in-order: apply, then drain the contiguous run beyond it
    have hnmcast : m.GetMessageNumber
        = (((chainFrom (numbersOf P) 0).toNat : Nat) : Int) + 1 := by
      rw [hnm, hcastP]
    have heq : m.GetMessageNumber
        = (rocketAfter c S
            (chainFrom (numbersOf P) 0).toNat).lastProcessedMessageNumber + 1 := by
      rw [hplast, ← hnmcast]
    have happ := processMessageByType_valid
      (canonState c S (chainFrom (numbersOf P) 0).toNat
        (pendingOf P (chainFrom (numbersOf P) 0)))
      (rocketAfter c S (chainFrom (numbersOf P) 0).toNat) m hv
      (rocketAfter_exploded c S hg.2.2.1 _)
    rw [processInOrder_apply_ok _ _ c m.GetMessageNumber m _ _ heq happ]
    have hjPlt : (chainFrom (numbersOf P) 0).toNat < S.length := by omega
    have hmget : m = S.get ⟨(chainFrom (numbersOf P) 0).toNat, hjPlt⟩ :=
      numbers_uniq S hg.2.1 m hmem _ hjPlt hnmcast
    rw [show m.GetMessageNumber
        = (((chainFrom (numbersOf P) 0).toNat : Nat) : Int) + 1 from hnmcast]
    rw [recordApplied_canonState c S _ _ m hjPlt hmget hnmcast]
    rw [canonState_pendingFor]
    have hkQgt : chainFrom (numbersOf P) 0 + 1
        ≤ chainFrom (numbersOf (P ++ [m])) 0 := by
      by_contra hcon
      push_neg at hcon
      rcases eq_or_lt_of_le (show chainFrom (numbersOf (P ++ [m])) 0 + 1
          ≤ chainFrom (numbersOf P) 0 + 1 by omega) with he | hl
      · exact hspecQ.2.2 (he ▸ (hnm ▸ hnmQ))
      · exact hspecQ.2.2 (mem_numbersOf_append_left P m _
          (hspecP.2.1 _ (by omega) (by omega)))
    have hdrain := drain_canon c S hg
      (pendingOf P (chainFrom (numbersOf P) 0)).length
      (pendingOf P (chainFrom (numbersOf P) 0))
      ((chainFrom (numbersOf P) 0).toNat + 1)
      (chainFrom (numbersOf (P ++ [m])) 0).toNat
      (le_refl _) (by omega) (by omega)
      (keys_pendingOf_nodup P _ hsplit.1)
      (by
        intro p hp
        obtain ⟨hp2, hp1, hp0⟩ := (mem_pendingOf P _ p).mp hp
        have hNP : p.1 ∈ numbersOf P := List.mem_map.mpr ⟨p.2, hp2, hp1.symm⟩
        have hne : p.1 ≠ chainFrom (numbersOf P) 0 + 1 := fun hq =>
          hspecP.2.2 (hq ▸ hNP)
        exact ⟨hp1, hPS p.2 hp2, by push_cast; omega⟩)
      (by
        refine ⟨by push_cast; omega, fun i hi1 hi2 => ?_, fun hmm => ?_⟩
        · push_cast at hi1 hi2
          have hiQ : i ∈ numbersOf (P ++ [m]) :=
            hspecQ.2.1 i (by omega) (by omega)
          rw [numbersOf_append, List.mem_append] at hiQ
          rcases hiQ with hiP | hiM
          · exact (mem_keys_pendingOf P _ i).mpr ⟨hiP, by omega⟩
          · simp only [List.mem_singleton] at hiM
            rw [hiM, hnm] at hi1
            exact (by omega : False).elim
        · obtain ⟨hNP, _⟩ := (mem_keys_pendingOf P _ _).mp hmm
          rw [hcastQ] at hNP
          exact hspecQ.2.2 (mem_numbersOf_append_left P m _ hNP))
    rw [hdrain]
    rw [canonBase_launched c S (P ++ [m]) hAQ2]
    congr 1
    rw [hcastQ, pendingOf_filter P _ _ (by omega), pendingOf_append,
      pendingOf_single_neg m _ (by omega), List.append_nil]
  · -- ahead of the cursor: the envelope is buffered and the chain is unmoved
    have hlt : (rocketAfter c S
          (chainFrom (numbersOf P) 0).toNat).lastProcessedMessageNumber + 1
        < m.GetMessageNumber := by
      rw [hplast]
      have : chainFrom (numbersOf P) 0 + 1 ≠ m.GetMessageNumber :=
        fun hq => hnm hq.symm
      omega
    rw [processInOrder_buffer' _ c _ m _ hlt]
    congr 1
    unfold bufferInto
    rw [canonState_pendingFor]
    have hinner : setKey (pendingOf P (chainFrom (numbersOf P) 0))
        m.GetMessageNumber m
        = pendingOf P (chainFrom (numbersOf P) 0) ++ [(m.GetMessageNumber, m)] :=
      setKey_append_of_not_mem _ _ _ (by
        rw [mem_keys_pendingOf]
        rintro ⟨h, _⟩
        exact hmP h)
    rw [hinner]
    have hkQP : chainFrom (numbersOf (P ++ [m])) 0 = chainFrom (numbersOf P) 0 :=
      chain_unique (numbersOf (P ++ [m])) 0 _ _ hspecQ
        ⟨hspecP.1, fun i hi1 hi2 =>
          mem_numbersOf_append_left P m i (hspecP.2.1 i hi1 hi2),
          by
            intro hmm
            rw [numbersOf_append, List.mem_append] at hmm
            rcases hmm with hmm | hmm
            · exact hspecP.2.2 hmm
            · simp only [List.mem_singleton] at hmm
              exact hnm hmm.symm⟩
    rw [canonBase_launched c S (P ++ [m]) hAQ2, hkQP]
    unfold canonState
    simp only [setKey_singleton, pendingOf_append,
      pendingOf_single_pos m _ hnmgt]



theorem ingest_canon_step (c : String) (S P : List RocketMessage)
    (m : RocketMessage) (hg : GoodStream c S) (hsub : (P ++ [m]).Subperm S) :
    ProcessMessage (canonRepo c S P) m = (canonRepo c S (P ++ [m]), true) := by
  cases hB : hasLaunched P with
  | false =>
    by_cases hty : m.GetMessageType = MessageTypeRocketLaunched
    · exact ingest_canon_A2 c S P m hg hsub hB hty
    · exact ingest_canon_A1 c S P m hg hsub hB hty
  | true => exact ingest_canon_B c S P m hg hsub hB

theorem ingest_canon (c : String) (S : List RocketMessage) (hg : GoodStream c S) :
    ∀ P : List RocketMessage, P.Subperm S → ingestAll P = canonRepo c S P := by
  intro P
  induction P using List.reverseRecOn with
  | nil => intro _; rfl
  | append_singleton P m ih =>
    intro hsub
    have hP : P.Subperm S := ((List.sublist_append_left P [m]).subperm).trans hsub
    have h1 : ingestAll (P ++ [m]) = (ProcessMessage (ingestAll P) m).1 := by
      unfold ingestAll
      rw [List.foldl_append]
      rfl
    rw [h1, ih hP, ingest_canon_step c S P m hg hsub]

theorem hasLaunched_perm (L S : List RocketMessage) (h : L.Perm S) :
    hasLaunched L = hasLaunched S := by
  unfold hasLaunched
  rw [Bool.eq_iff_iff, List.any_eq_true, List.any_eq_true]
  constructor <;> rintro ⟨x, hx, hfx⟩
  · exact ⟨x, h.subset hx, hfx⟩
  · exact ⟨x, h.symm.subset hx, hfx⟩

theorem chainFrom_perm_eq (ns1 ns2 : List Int)
    (h : ∀ x : Int, x ∈ ns1 ↔ x ∈ ns2) : chainFrom ns1 0 = chainFrom ns2 0 :=
  chain_unique ns1 0 _ _ (chainFrom_spec ns1 0)
    ⟨(chainFrom_spec ns2 0).1,
     fun i hi1 hi2 => (h i).mpr ((chainFrom_spec ns2 0).2.1 i hi1 hi2),
     fun hm => (chainFrom_spec ns2 0).2.2 ((h _).mp hm)⟩

theorem chainFrom_full (S : List RocketMessage)
    (hn : numbersOf S = ascInts S.length) :
    chainFrom (numbersOf S) 0 = (S.length : Int) :=
  chain_unique _ 0 _ _ (chainFrom_spec _ 0)
    ⟨by omega,
     fun i hi1 hi2 => by rw [hn, mem_ascInts]; omega,
     by rw [hn, mem_ascInts]; omega⟩

theorem pendingOf_eq_nil (P : List RocketMessage) (k : Int)
    (h : ∀ m ∈ P, m.GetMessageNumber ≤ k) : pendingOf P k = [] := by
  rw [pendingOf, List.filterMap_eq_nil_iff]
  intro m hm
  rw [if_neg (by have := h m hm; omega)]

theorem canonRepo_ne_nil (c : String) (S P : List RocketMessage) (h : P ≠ []) :
    canonRepo c S P = canonBase c S P := by
  cases P with
  | nil => exact absurd rfl h
  | cons a l => rfl

theorem canonRepo_perm (c : String) (S L : List RocketMessage)
    (hg : GoodStream c S) (hperm : L.Perm S) :
    canonRepo c S L = canonRepo c S S := by
  cases hL : L with
  | nil =>
    have hS : S = [] := (hL ▸ hperm).symm.eq_nil
    rw [hS]
  | cons a l =>
    have hLne : L ≠ [] := by rw [hL]; simp
    have hSne : S ≠ [] := by
      intro hS
      rw [hS] at hperm
      rw [hperm.eq_nil] at hL
      exact List.noConfusion hL
    rw [← hL, canonRepo_ne_nil c S L hLne, canonRepo_ne_nil c S S hSne]
    have hmemiff : ∀ x : Int, x ∈ numbersOf L ↔ x ∈ numbersOf S :=
      fun x => (hperm.map _).mem_iff
    have hchain : chainFrom (numbersOf L) 0 = chainFrom (numbersOf S) 0 :=
      chainFrom_perm_eq _ _ hmemiff
    have hkS : chainFrom (numbersOf S) 0 = (S.length : Int) :=
      chainFrom_full S hg.2.1
    have hAeq : hasLaunched L = hasLaunched S := hasLaunched_perm L S hperm
    have hpL : pendingOf L (chainFrom (numbersOf S) 0) = [] :=
      pendingOf_eq_nil _ _ (fun q hq => by
        rw [hkS]
        exact (numbers_mem_bounds S hg.2.1 q (hperm.subset hq)).2)
    have hpS : pendingOf S (chainFrom (numbersOf S) 0) = [] :=
      pendingOf_eq_nil _ _ (fun q hq => by
        rw [hkS]
        exact (numbers_mem_bounds S hg.2.1 q hq).2)
    unfold canonBase
    rw [hAeq, hchain]
    simp only [hpL, hpS]



/-- C5 counterexample: the stream `#1 Launched, #2 Exploded, #3 Launched,
`#4 SpeedIncreased` on `"R"` is accepted envelope-by-envelope in
message-number order (`ok = true` four times), yet ingesting it in reverse
order ends with a different rocket state (speed `800`, cursor `3` instead of
speed `850`, cursor `4`): the explosion sweep drops the buffered
`SpeedIncreased` in the reversed run, so order-insensitivity fails as
claimed. -/
theorem c5_not_order_insensitive :
    okList [msgL1R, msgEX2R, msgL3R, msgSI4R] = [true, true, true, true] ∧
    [msgSI4R, msgL3R, msgEX2R, msgL1R].Perm [msgL1R, msgEX2R, msgL3R, msgSI4R] ∧
    GetRocket (ingestAll [msgSI4R, msgL3R, msgEX2R, msgL1R]) "R"
      ≠ GetRocket (ingestAll [msgL1R, msgEX2R, msgL3R, msgSI4R]) "R" := by
  decide

/-- C5 (amended): for a single-channel stream `S` whose message numbers are
exactly `1..n` in arrival order, whose payloads all pass the per-kind
validation with a kind that is neither `Exploded` nor unrecognized, and
whose first message is a `Launched`, ingesting any permutation of `S` into a
fresh repository yields exactly the repository produced by the in-order
stream. -/
theorem c5_permutation_equiv (c : String) (S L : List RocketMessage)
    (hg : GoodStream c S) (hperm : L.Perm S) :
    ingestAll L = ingestAll S := by
  rw [ingest_canon c S hg L hperm.subperm,
    ingest_canon c S hg S (List.Subperm.refl S),
    canonRepo_perm c S L hg hperm]

theorem c5_permutation_equiv_witness :
    GoodStream "R" [msgL1R, msgSD2R] ∧
    [msgSD2R, msgL1R].Perm [msgL1R, msgSD2R] ∧
    ingestAll [msgSD2R, msgL1R] = ingestAll [msgL1R, msgSD2R] :=
  ⟨by decide, by decide, c5_permutation_equiv "R" [msgL1R, msgSD2R]
    [msgSD2R, msgL1R] (by decide) (by decide)⟩

end Lunar
